import Mathlib

/-!
Verification of the gosshit SSH-config document model: a shallow embedding of
the parser (`ParseConfig` in internal/sshconfig/parser.go), the writer
(`WriteConfig` / `writeEntry`) and the mutation operations
(`AddEntry` / `UpdateEntry` / `DeleteEntry`), together with theorems settling
the frozen claims about round-tripping, validity filtering, first-match
semantics, description handling and raw-line preservation.

Files are modelled as lists of text lines (the `bufio.Scanner` line split);
`render` recovers the byte content of a file whose every line ends in a
newline.  All string helpers mirror the exact Go standard-library functions
used by the source (`strings.TrimSpace`, `strings.Fields`, `strings.Join`,
`strings.HasPrefix`, `strings.Contains`, `strings.TrimPrefix`,
`strings.ToLower`, and the manual `line[:len(line)-len(strings.TrimLeft(...))]`
indentation extraction).
-/

namespace Gosshit

/-- Go `unicode.IsSpace` restricted to the ASCII space characters
(' ', '\t', '\n', '\v', '\f', '\r'), as used by `strings.Fields` and
`strings.TrimSpace`. -/
def goIsSpace (c : Char) : Bool :=
  c = ' ' || c = '\t' || c = '\n' || c = '\r' || c.toNat = 11 || c.toNat = 12

/-- Character-list version of Go `strings.HasPrefix`. -/
def startsList : List Char → List Char → Bool
  | [], _ => true
  | _ :: _, [] => false
  | p :: ps, c :: cs => p = c && startsList ps cs

/-- Go `strings.HasPrefix s pat`. -/
def startsW (s pat : String) : Bool :=
  startsList pat.data s.data

/-- Character-list search for a contiguous occurrence, for Go `strings.Contains`. -/
def subOf (pat : List Char) : List Char → Bool
  | [] => startsList pat []
  | c :: cs => startsList pat (c :: cs) || subOf pat cs

/-- Go `strings.Contains s pat`. -/
def containsSub (s pat : String) : Bool :=
  subOf pat.data s.data

/-- Go `strings.ToLower` (ASCII behaviour, which is all the source compares). -/
def lowerS (s : String) : String :=
  String.mk (s.data.map Char.toLower)

/-- Go `strings.TrimSpace`. -/
def trimS (s : String) : String :=
  String.mk (((s.data.dropWhile goIsSpace).reverse.dropWhile goIsSpace).reverse)

/-- The leading whitespace of a line:
Go `line[:len(line)-len(strings.TrimLeft(line, " \t"))]`. -/
def leadingWS (l : String) : String :=
  String.mk (l.data.takeWhile fun c => c = ' ' || c = '\t')

/-- Worker for `fields`: accumulates the current word (reversed). -/
def fieldsAux : List Char → List Char → List String
  | [], [] => []
  | [], acc => [String.mk acc.reverse]
  | c :: cs, acc =>
    if goIsSpace c then
      match acc with
      | [] => fieldsAux cs []
      | _ :: _ => String.mk acc.reverse :: fieldsAux cs []
    else fieldsAux cs (c :: acc)

/-- Go `strings.Fields`: split on whitespace runs, dropping empty words. -/
def fields (s : String) : List String :=
  fieldsAux s.data []

/-- Go `strings.Join parts " "`. -/
def joinSp (parts : List String) : String :=
  String.intercalate " " parts

/-- Go `strings.Join lines "\n"`. -/
def joinNL (lines : List String) : String :=
  String.intercalate "\n" lines

/-- Go `strings.TrimPrefix`. -/
def dropPre (s pat : String) : String :=
  if startsW s pat then String.mk (s.data.drop pat.data.length) else s

/-- The byte content of a file given as a list of lines, each terminated by a
newline — exactly what the writer's sequence of `WriteString(line + "\n")`
calls produces. -/
def render (lines : List String) : String :=
  String.join (lines.map fun l => l ++ "\n")

/-- 1-based inclusive line span `[a, b]` of a file. -/
def lineSlice (ls : List String) (a b : Nat) : List String :=
  (ls.take b).drop (a - 1)

/-- Structure `HostEntry` from internal/sshconfig/model.go. -/
structure HostEntry where
  Host : String
  HostName : String
  User : String
  Port : String
  IdentityFile : String
  Description : String
  Comment : String
  RawLines : List String
  StartLine : Nat
  EndLine : Nat
deriving DecidableEq, Repr, Inhabited

/-- Predicate `HostEntry.IsValid` from internal/sshconfig/model.go. -/
def HostEntry.IsValid (h : HostEntry) : Bool :=
  if h.Host = "" then false
  else if h.Host = "*" then true
  else h.HostName ≠ ""

/-- The way a line is dispatched by the parser's main loop: comment, blank,
fewer than two whitespace-separated parts, a `Host` directive, or another
directive (with its lower-cased name and space-rejoined value). -/
inductive LineKind where
  | comment
  | blank
  | short
  | host (value : String)
  | dir (d : String) (value : String)
deriving DecidableEq, Repr

/-- Classify one line exactly as the loop body of `ParseConfig` does:
trim, check `#`, check blank, split into fields, lower-case the directive. -/
def classify (l : String) : LineKind :=
  let t := trimS l
  if startsW t "#" then .comment
  else if t = "" then .blank
  else
    match fields t with
    | d :: v :: vs =>
      if lowerS d = "host" then .host (joinSp (v :: vs))
      else .dir (lowerS d) (joinSp (v :: vs))
    | _ => .short

/-- The local variables of `ParseConfig`'s scanning loop. -/
structure ParseState where
  entries : List HostEntry
  standalone : List String
  current : Option HostEntry
  commentBuffer : List String
  currentHostLines : List String
  lineNum : Nat
  inHostBlock : Bool
deriving Repr

def initState : ParseState :=
  { entries := [], standalone := [], current := none, commentBuffer := [],
    currentHostLines := [], lineNum := 0, inHostBlock := false }

/-- The description-extraction loop run over the comment buffer when a
`Host` directive opens a new block (parser.go lines 143-164). -/
def extractDescGo : List String → String → String
  | [], acc => acc
  | c :: cs, acc =>
    let t := trimS c
    if t = "" then extractDescGo cs acc
    else if startsW t "# Description:" then trimS (dropPre t "# Description:")
    else if startsW t "#" && !startsW t "##" then
      extractDescGo cs (if acc = "" then trimS (dropPre t "#") else acc)
    else extractDescGo cs acc

def extractDesc (buf : List String) : String :=
  extractDescGo buf ""

/-- Field assignment switch on the directive name (parser.go lines 193-202). -/
def setField (e : HostEntry) (dir value : String) : HostEntry :=
  if dir = "hostname" then { e with HostName := value }
  else if dir = "user" then { e with User := value }
  else if dir = "port" then { e with Port := value }
  else if dir = "identityfile" then { e with IdentityFile := value }
  else e

/-- The finalized form of the open entry when its block is closed at raw
lines `hl` with end line `n`. -/
def closeEntry (e : HostEntry) (hl : List String) (n : Nat) : HostEntry :=
  { e with RawLines := hl, EndLine := n }

/-- Condition under which a comment line finalizes the open block
(parser.go lines 65-68): the line is an un-indented `# Description:` comment
or an un-indented plain non-`##` comment seen inside a block. -/
def closeCond (st : ParseState) (line : String) : Bool :=
  (startsW (trimS line) "# Description:" ||
      (startsW (trimS line) "#" && !startsW (trimS line) "##" && st.inHostBlock)) &&
    st.inHostBlock && !startsW line " " && !startsW line "\t"

/-- Comment-line handling (parser.go lines 62-93): an un-indented
`# Description:` or plain non-`##` comment seen inside a block finalizes the
block; then the comment is appended to the block's lines or to the buffer. -/
def commentStep (st : ParseState) (line : String) (n : Nat) : ParseState :=
  let st1 :=
    if closeCond st line then
      { st with
        entries :=
          match st.current with
          | some e =>
            let e' := { e with RawLines := st.currentHostLines, EndLine := n - 1 }
            if e'.IsValid then st.entries ++ [e'] else st.entries
          | none => st.entries,
        inHostBlock := false, current := none, currentHostLines := [] }
    else st
  if st1.inHostBlock then
    { st1 with
      currentHostLines := st1.currentHostLines ++ [line],
      current :=
        match st1.current with
        | some e => some { e with Comment := e.Comment ++ line ++ "\n" }
        | none => none,
      lineNum := n }
  else
    { st1 with commentBuffer := st1.commentBuffer ++ [line], lineNum := n }

/-- Blank-line handling (parser.go lines 96-107). -/
def blankStep (st : ParseState) (line : String) (n : Nat) : ParseState :=
  if st.inHostBlock then
    { st with
      currentHostLines := st.currentHostLines ++ [line],
      current :=
        match st.current with
        | some e => some { e with Comment := e.Comment ++ line ++ "\n" }
        | none => none,
      lineNum := n }
  else { st with lineNum := n }

/-- Handling of a line with fewer than two fields (parser.go lines 111-116). -/
def shortStep (st : ParseState) (line : String) (n : Nat) : ParseState :=
  if st.inHostBlock then
    { st with currentHostLines := st.currentHostLines ++ [line], lineNum := n }
  else { st with lineNum := n }

/-- Handling of a `Host` directive (parser.go lines 122-181): finalize the open
block, then open a new entry seeded from the comment buffer. -/
def hostStep (st : ParseState) (line value : String) (n : Nat) : ParseState :=
  let entries' :=
    match st.current, st.inHostBlock with
    | some e, true =>
      let e' := { e with RawLines := st.currentHostLines, EndLine := n - 1 }
      if e'.IsValid then st.entries ++ [e'] else st.entries
    | _, _ => st.entries
  let ne : HostEntry :=
    { Host := value, HostName := "", User := "", Port := "", IdentityFile := "",
      Description := extractDesc st.commentBuffer,
      Comment := if st.commentBuffer = [] then "" else joinNL st.commentBuffer ++ "\n",
      RawLines := [], StartLine := n, EndLine := 0 }
  { entries := entries', standalone := st.standalone, current := some ne,
    commentBuffer := [], currentHostLines := st.commentBuffer ++ [line],
    lineNum := n, inHostBlock := true }

/-- Non-`Host` directive handling (parser.go lines 183-209): flush the
comment buffer when outside a block, set the matching typed field inside. -/
def otherDirStep (st : ParseState) (line dir value : String) (n : Nat) : ParseState :=
  let st1 :=
    if !st.inHostBlock && st.commentBuffer ≠ [] then
      { st with standalone := st.standalone ++ st.commentBuffer, commentBuffer := [] }
    else st
  match st1.current, st1.inHostBlock with
  | some e, true =>
    { st1 with
      currentHostLines := st1.currentHostLines ++ [line],
      current := some (setField e dir value),
      lineNum := n }
  | _, _ =>
    if st1.commentBuffer ≠ [] then
      { st1 with
        standalone := st1.standalone ++ st1.commentBuffer,
        commentBuffer := [], lineNum := n }
    else { st1 with lineNum := n }

/-- One iteration of `ParseConfig`'s scanning loop. -/
def processLine (st : ParseState) (line : String) : ParseState :=
  match classify line with
  | .comment => commentStep st line (st.lineNum + 1)
  | .blank => blankStep st line (st.lineNum + 1)
  | .short => shortStep st line (st.lineNum + 1)
  | .host v => hostStep st line v (st.lineNum + 1)
  | .dir d v => otherDirStep st line d v (st.lineNum + 1)

/-- Core of `ParseConfig` on file content given as lines: run the loop, finalize a
still-open block, flush the remaining comment buffer
(parser.go lines 45-230). -/
def parseLines (ls : List String) : List HostEntry × List String :=
  let st := ls.foldl processLine initState
  let entries :=
    match st.current, st.inHostBlock with
    | some e, true =>
      let e' := { e with RawLines := st.currentHostLines, EndLine := st.lineNum }
      if e'.IsValid then st.entries ++ [e'] else st.entries
    | _, _ => st.entries
  let stand :=
    if st.commentBuffer = [] then st.standalone
    else st.standalone ++ st.commentBuffer
  (entries, stand)

/-- The result of `os.Open` on the config path, abstracting the filesystem:
the path does not exist, opening fails with some other error, or the file's
content (as scanner lines) is available. -/
inductive FileReadResult where
  | notExist
  | openError (msg : String)
  | content (lines : List String)

/-- Function `ParseConfig` including its I/O contract (parser.go lines 35-42):
a missing file yields empty results and no error, any other open failure is
propagated as an error. -/
def ParseConfig : FileReadResult → Except String (List HostEntry × List String)
  | .notExist => .ok ([], [])
  | .openError m => .error ("failed to open config file: " ++ m)
  | .content ls => .ok (parseLines ls)

/-- The `writtenHostname` / `writtenUser` / `writtenPort` flags of
`writeEntry`. -/
structure WFlags where
  hn : Bool
  us : Bool
  pt : Bool
deriving DecidableEq, Repr

/-- The `hasDesc` scan of `writeEntry` (part_001 lines 68-75):
does any raw line contain `# Description:`? -/
def hasDescLine (rls : List String) : Bool :=
  rls.any fun l => containsSub l "# Description:"

/-- Indentation detection of `writeEntry` (part_001 lines 83-95): leading
whitespace of the first non-blank, non-comment, non-`Host` line, defaulting
to four spaces. -/
def detectIndent : List String → String
  | [] => "    "
  | l :: ls =>
    let t := trimS l
    if t ≠ "" && !startsW t "#" && !startsW (lowerS t) "host " then
      if (leadingWS l).length > 0 then leadingWS l else detectIndent ls
    else detectIndent ls

/-- Replay of one raw line by `writeEntry` (part_001 lines 102-191): comments,
blanks and short lines verbatim; `Host` re-emitted from the entry; recognized
directives re-emitted with the new value when changed (or dropped when the
optional field is now empty), verbatim otherwise.  The loop recomputes
trim/fields/lower-case exactly as the parser does, so the dispatch is shared
through `classify`; the changed-value rewrite keeps the line's own leading
whitespace and the original spelling of the directive (the first field). -/
def replayLine (e : HostEntry) (fl : WFlags) (l : String) : WFlags × List String :=
  match classify l with
  | .comment | .blank | .short => (fl, [l])
  | .host _ => (fl, ["Host " ++ e.Host])
  | .dir dir nv =>
    let oi := leadingWS l
    let d := (fields (trimS l)).headD ""
    if dir = "hostname" then
      ({ fl with hn := true },
        [if nv = e.HostName then l else oi ++ d ++ " " ++ e.HostName])
    else if dir = "user" then
      ({ fl with us := true },
        if e.User = "" then []
        else [if nv = e.User then l else oi ++ d ++ " " ++ e.User])
    else if dir = "port" then
      ({ fl with pt := true },
        if e.Port = "" then []
        else [if nv = e.Port then l else oi ++ d ++ " " ++ e.Port])
    else (fl, [l])

def replayStep (e : HostEntry) (acc : WFlags × List String) (l : String) :
    WFlags × List String :=
  let r := replayLine e acc.1 l
  (r.1, acc.2 ++ r.2)

/-- The full raw-line replay loop of `writeEntry`. -/
def replayAll (e : HostEntry) (lines : List String) : WFlags × List String :=
  lines.foldl (replayStep e) (⟨false, false, false⟩, [])

/-- Function `writeEntry` (part_001 lines 64-243) producing the emitted lines:
either the diff-preserving replay of `RawLines` (with an injected
`# Description:` line and appends for required-but-missing directives), or
the fixed-order serialization of a fresh entry. -/
def writeEntryLines (e : HostEntry) : List String :=
  if e.RawLines = [] then
    (if e.Description = "" then [] else ["# Description: " ++ e.Description])
    ++ ["Host " ++ e.Host]
    ++ (if e.HostName = "" then [] else ["    HostName " ++ e.HostName])
    ++ (if e.User = "" then [] else ["    User " ++ e.User])
    ++ (if e.Port = "" then [] else ["    Port " ++ e.Port])
  else
    let r := replayAll e e.RawLines
    let ind := detectIndent e.RawLines
    (if e.Description = "" then []
     else if hasDescLine e.RawLines then []
     else ["# Description: " ++ e.Description])
    ++ r.2
    ++ (if r.1.hn then [] else if e.HostName = "" then []
        else [ind ++ "HostName " ++ e.HostName])
    ++ (if r.1.us then [] else if e.User = "" then []
        else [ind ++ "User " ++ e.User])
    ++ (if r.1.pt then [] else if e.Port = "" then []
        else [ind ++ "Port " ++ e.Port])

/-- Function `WriteConfig` (part_001 lines 11-61) producing the emitted lines:
standalone comments, one separating blank line when both parts are non-empty,
then the entries separated by single blank lines. -/
def writeConfigLines (entries : List HostEntry) (standalone : List String) :
    List String :=
  (if standalone = [] then []
   else standalone ++ (if entries = [] then [] else [""]))
  ++ List.intercalate [""] (entries.map writeEntryLines)

/-- The replace-first-match loop of `UpdateEntry` (part_001 lines 263-268). -/
def replaceFirst : List HostEntry → String → HostEntry → List HostEntry
  | [], _, _ => []
  | e :: es, h, ne => if e.Host = h then ne :: es else e :: replaceFirst es h ne

/-- The keep-non-matching loop of `DeleteEntry` (part_001 lines 280-285). -/
def deleteFiltered : List HostEntry → String → List HostEntry
  | [], _ => []
  | e :: es, h =>
    if e.Host ≠ h then e :: deleteFiltered es h else deleteFiltered es h

/-- Operation `AddEntry` as a file transformation: parse, append, write. -/
def addEntryLines (ls : List String) (e : HostEntry) : List String :=
  let p := parseLines ls
  writeConfigLines (p.1 ++ [e]) p.2

/-- Operation `UpdateEntry` as a file transformation: parse, replace first match, write. -/
def updateEntryLines (ls : List String) (oldHost : String) (ne : HostEntry) :
    List String :=
  let p := parseLines ls
  writeConfigLines (replaceFirst p.1 oldHost ne) p.2

/-- Operation `DeleteEntry` as a file transformation: parse, drop all matches, write. -/
def deleteEntryLines (ls : List String) (host : String) : List String :=
  let p := parseLines ls
  writeConfigLines (deleteFiltered p.1 host) p.2

/-! ### Generic list and string lemmas -/

/-- Right-trim of a character list. -/
def rstrip (l : List Char) : List Char :=
  (l.reverse.dropWhile goIsSpace).reverse

/-! ### Derived counting, invariant and bookkeeping definitions -/

/-- The fields contributed by the (right-stripped) tail after the first word. -/
def tailFields : List Char → List String
  | [] => []
  | _ :: z => fieldsAux z []

/-- Number of returned entries whose alias is the global `*`. -/
def starCount (es : List HostEntry) : Nat :=
  (es.filter fun e => e.Host = "*").length

/-- Does this line parse as a `Host` directive whose value is `*`? -/
def isStarHost (l : String) : Bool :=
  match classify l with
  | .host v => v = "*"
  | _ => false

/-- Number of `Host *` directive lines in a file. -/
def starLines (ls : List String) : Nat :=
  (ls.filter isStarHost).length

/-- Contribution of a still-open block to the count of `*` entries. -/
def openStar (st : ParseState) : Nat :=
  match st.current, st.inHostBlock with
  | some e, true => if e.Host = "*" then 1 else 0
  | _, _ => 0

/-- The invariant for claim C2: an open block has a current entry, every
accumulated entry passed `IsValid`, and `*` entries (counting a possibly
still-open `*` block) balance the `Host *` lines seen so far. -/
def Inv2 (st : ParseState) (done : List String) : Prop :=
  (st.inHostBlock = true → st.current.isSome) ∧
  (∀ e ∈ st.entries, e.IsValid = true) ∧
  starCount st.entries + openStar st = starLines done

/-- The entry opened by a `Host` directive. -/
def newHostEntry (st : ParseState) (value : String) (n : Nat) : HostEntry :=
  { Host := value, HostName := "", User := "", Port := "", IdentityFile := "",
    Description := extractDesc st.commentBuffer,
    Comment := if st.commentBuffer = [] then "" else joinNL st.commentBuffer ++ "\n",
    RawLines := [], StartLine := n, EndLine := 0 }

/-- All the lines of a list are comment lines. -/
def commentsOnly (pre : List String) : Prop :=
  ∀ x ∈ pre, classify x = LineKind.comment

/-- The invariant for claim C7: the line counter tracks the processed lines,
the comment buffer holds only comment lines, the open block's accumulated
lines are its buffered leading comments followed by the source span from its
start line, and every finished entry's raw lines are its buffered leading
comments followed by its `[startLine, endLine]` source span. -/
def Inv7 (st : ParseState) (done : List String) : Prop :=
  st.lineNum = done.length ∧
  commentsOnly st.commentBuffer ∧
  (st.inHostBlock = true → ∃ e, st.current = some e ∧
    1 ≤ e.StartLine ∧ e.StartLine ≤ done.length ∧
    ∃ pre, commentsOnly pre ∧
      st.currentHostLines = pre ++ lineSlice done e.StartLine done.length) ∧
  (∀ e ∈ st.entries, e.EndLine ≤ done.length ∧
    ∃ pre, commentsOnly pre ∧
      e.RawLines = pre ++ lineSlice done e.StartLine e.EndLine)

/-- Is the line a recognized-or-unrecognized directive with lowered name `d`? -/
def isDirLine (l : String) (d : String) : Bool :=
  match classify l with
  | .dir d' _ => d' = d
  | _ => false

/-- The values of the `d`-directive lines among `ls`, in order. -/
def dirValues (ls : List String) (d : String) : List String :=
  ls.filterMap fun l =>
    match classify l with
    | .dir d' v => if d' = d then some v else none
    | _ => none

/-- The value of the last `d`-directive line, or the default: what the
parser's repeated field assignment leaves in the entry. -/
def lastD (ls : List String) (d : String) (dflt : String) : String :=
  (dirValues ls d).getLastD dflt

/-- Flag update contributed by one replayed line. -/
def updFl (fl : WFlags) (l : String) : WFlags :=
  ⟨fl.hn || isDirLine l "hostname", fl.us || isDirLine l "user",
   fl.pt || isDirLine l "port"⟩

/-- The lines emitted for one replayed raw line (flag-independent). -/
def outOf (e : HostEntry) (l : String) : List String :=
  (replayLine e ⟨false, false, false⟩ l).2

/-- A raw line the replay loop reproduces byte-for-byte, given the entry's
current field values: comments, blanks, short lines and unrecognized
directives always; the `Host` line when it is spelled exactly as re-emitted;
recognized directives when their parsed value equals the (non-empty, for
optional ones) current field value. -/
def verbatimLine (e : HostEntry) (l : String) : Bool :=
  match classify l with
  | .host _ => l == "Host " ++ e.Host
  | .dir d v =>
    if d = "hostname" then v == e.HostName
    else if d = "user" then e.User != "" && v == e.User
    else if d = "port" then e.Port != "" && v == e.Port
    else true
  | _ => true

/-- A line that keeps the current block open and is handled in place by the
parser loop: an indented or `##` comment, a blank, a short line, or a
directive other than `Host` (whose value is non-empty when recognized). -/
def restOK (l : String) : Bool :=
  match classify l with
  | .comment => startsW l " " || startsW l "\t" ||
      (startsW (trimS l) "##" && !startsW (trimS l) "# Description:")
  | .blank => true
  | .short => true
  | .host _ => false
  | .dir d v => !(d = "hostname" || d = "user" || d = "port") || v != ""

/-- The round-trip-safe class of files forced by the counterexample: a single
valid block whose `Host` line is spelled canonically, whose remaining lines
keep the block open and carry non-empty values, and whose recognized
directives appear at most once. -/
def RTClass (f : List String) : Prop :=
  ∃ a rest, f = ("Host " ++ a) :: rest ∧
    classify ("Host " ++ a) = LineKind.host a ∧ a ≠ "" ∧
    (∀ l ∈ rest, restOK l = true) ∧
    (dirValues rest "hostname").length ≤ 1 ∧
    (dirValues rest "user").length ≤ 1 ∧
    (dirValues rest "port").length ≤ 1 ∧
    (a = "*" ∨ dirValues rest "hostname" ≠ [])

theorem trimS_eq_rstrip (s : String) :
    trimS s = String.mk (rstrip (s.data.dropWhile goIsSpace)) := rfl

theorem data_append (s t : String) : (s ++ t).data = s.data ++ t.data := by
  cases s; cases t; rfl

theorem dropWhile_app {p : Char → Bool} (a b : List Char) :
    (a ++ b).dropWhile p =
      if a.dropWhile p = [] then b.dropWhile p else a.dropWhile p ++ b := by
  induction a with
  | nil => simp
  | cons c a ih =>
    by_cases hc : p c
    · simpa [List.dropWhile_cons, hc] using ih
    · simp [List.dropWhile_cons, hc]

theorem rstrip_append (a b : List Char) :
    rstrip (a ++ b) = if rstrip b = [] then rstrip a else a ++ rstrip b := by
  unfold rstrip
  rw [List.reverse_append, dropWhile_app]
  by_cases hb : b.reverse.dropWhile goIsSpace = []
  · simp [hb]
  · have : ¬ (b.reverse.dropWhile goIsSpace).reverse = [] := by
      simpa using hb
    simp [hb, this]

theorem dropWhile_all_not {p : Char → Bool} :
    ∀ {l : List Char}, (∀ c ∈ l, p c = false) → l.dropWhile p = l := by
  intro l
  induction l with
  | nil => intro _; rfl
  | cons c cs ih =>
    intro h
    have hc : p c = false := h c (by simp)
    simp [List.dropWhile_cons, hc]

theorem rstrip_of_all_not {l : List Char} (h : ∀ c ∈ l, goIsSpace c = false) :
    rstrip l = l := by
  unfold rstrip
  rw [dropWhile_all_not, List.reverse_reverse]
  intro c hc
  exact h c (by simpa using hc)

theorem rstrip_singleton (c : Char) :
    rstrip [c] = if goIsSpace c then [] else [c] := by
  by_cases hc : goIsSpace c <;> simp [rstrip, List.dropWhile_cons, hc]

theorem rstrip_cons (c : Char) (z : List Char) :
    rstrip (c :: z) = [] ∨ ∃ z', rstrip (c :: z) = c :: z' := by
  have hcz : (c :: z) = [c] ++ z := rfl
  rw [hcz, rstrip_append]
  by_cases hz : rstrip z = []
  · rw [if_pos hz, rstrip_singleton]
    by_cases hc : goIsSpace c
    · left; rw [if_pos hc]
    · right; exact ⟨[], by rw [if_neg hc]⟩
  · right; exact ⟨rstrip z, by rw [if_neg hz]; rfl⟩

theorem fieldsAux_word (w : List Char) (hw : ∀ c ∈ w, goIsSpace c = false) :
    ∀ (rest acc : List Char),
      fieldsAux (w ++ rest) acc = fieldsAux rest (w.reverse ++ acc) := by
  induction w with
  | nil => intro rest acc; simp
  | cons c w ih =>
    intro rest acc
    have hc : goIsSpace c = false := hw c (by simp)
    have hw' : ∀ x ∈ w, goIsSpace x = false := fun x hx => hw x (by simp [hx])
    simp [fieldsAux, hc, ih hw', List.append_assoc]

theorem fieldsAux_space_cons (c : Char) (hc : goIsSpace c = true)
    (rest acc : List Char) :
    fieldsAux (c :: rest) acc =
      match acc with
      | [] => fieldsAux rest []
      | _ :: _ => String.mk acc.reverse :: fieldsAux rest [] := by
  cases acc <;> simp [fieldsAux, hc]

/-- Shape of `fields (trimS l)` for a line built as padding, a solid word and
a tail that is empty or starts with a space: the word is the first field. -/
theorem fields_trim_shape (pre w tail : List Char)
    (hpre : ∀ c ∈ pre, goIsSpace c = true)
    (hw : w ≠ []) (hwa : ∀ c ∈ w, goIsSpace c = false)
    (htail : tail = [] ∨ ∃ z, tail = ' ' :: z) :
    (trimS (String.mk (pre ++ w ++ tail))).data = w ++ rstrip tail ∧
    fields (trimS (String.mk (pre ++ w ++ tail))) =
      String.mk w :: tailFields (rstrip tail) := by
  have hdrop1 : (pre ++ w ++ tail).dropWhile goIsSpace = w ++ tail := by
    rw [List.append_assoc, dropWhile_app]
    have h1 : pre.dropWhile goIsSpace = [] := by
      simpa [List.dropWhile_eq_nil_iff] using hpre
    have h2 : (w ++ tail).dropWhile goIsSpace = w ++ tail := by
      cases w with
      | nil => exact absurd rfl hw
      | cons c w' =>
        have : goIsSpace c = false := hwa c (by simp)
        simp [List.dropWhile_cons, this]
    simp [h1, h2]
  have hstrip : rstrip (w ++ tail) = w ++ rstrip tail := by
    rw [rstrip_append]
    by_cases ht : rstrip tail = []
    · simp [ht, rstrip_of_all_not hwa]
    · simp [ht]
  have hdata : (trimS (String.mk (pre ++ w ++ tail))).data = w ++ rstrip tail := by
    rw [trimS_eq_rstrip]
    show (rstrip ((pre ++ w ++ tail).dropWhile goIsSpace)) = _
    rw [hdrop1, hstrip]
  refine ⟨hdata, ?_⟩
  have hfe : fields (trimS (String.mk (pre ++ w ++ tail)))
      = fieldsAux (w ++ rstrip tail) [] := by
    unfold fields; rw [hdata]
  have hwrev : w.reverse ≠ [] := by simpa using hw
  have hnilcons : ∀ (a : Char) (as : List Char),
      fieldsAux [] (a :: as) = [String.mk (a :: as).reverse] := fun _ _ => rfl
  have hsingle : fieldsAux w [] = [String.mk w] := by
    have := fieldsAux_word w hwa [] []
    rw [List.append_nil] at this
    rw [this]
    cases hr : w.reverse with
    | nil => exact absurd hr hwrev
    | cons a as =>
      rw [List.append_nil, hnilcons a as, ← hr, List.reverse_reverse]
  rcases htail with h | ⟨z, hz⟩
  · subst h
    rw [hfe]
    show fieldsAux (w ++ []) [] = _
    rw [List.append_nil, hsingle]
    rfl
  · subst hz
    rcases rstrip_cons ' ' z with h0 | ⟨z', hz'⟩
    · rw [hfe, h0, List.append_nil, hsingle]
      rfl
    · rw [hfe, hz', fieldsAux_word w hwa (' ' :: z') []]
      have hsp : goIsSpace ' ' = true := rfl
      rw [fieldsAux_space_cons ' ' hsp z' (w.reverse ++ []), List.append_nil]
      cases hr : w.reverse with
      | nil => exact absurd hr hwrev
      | cons a as =>
        show String.mk (a :: as).reverse :: fieldsAux z' [] = _
        rw [← hr, List.reverse_reverse]
        rfl

theorem rstrip_cons_nonspace {c : Char} (hc : goIsSpace c = false)
    (z : List Char) : ∃ z', rstrip (c :: z) = c :: z' := by
  have hcz : (c :: z) = [c] ++ z := rfl
  rw [hcz, rstrip_append]
  by_cases hz : rstrip z = []
  · exact ⟨[], by rw [if_pos hz, rstrip_singleton, if_neg (by simp [hc])]⟩
  · exact ⟨rstrip z, by rw [if_neg hz]; rfl⟩

theorem mk_ne_empty (c : Char) (l : List Char) : String.mk (c :: l) ≠ "" := by
  intro h
  have := congrArg String.data h
  simp at this

/-- A line whose first character is `#` is classified as a comment. -/
theorem classify_of_hash (l : String) (r : List Char) (h : l.data = '#' :: r) :
    classify l = LineKind.comment := by
  have hns : goIsSpace '#' = false := rfl
  have hdrop : l.data.dropWhile goIsSpace = '#' :: r := by
    rw [h, List.dropWhile_cons]
    simp [hns]
  obtain ⟨z', hz'⟩ := rstrip_cons_nonspace hns r
  have htd : (trimS l).data = '#' :: z' := by
    rw [trimS_eq_rstrip]
    show (rstrip (l.data.dropWhile goIsSpace)) = _
    rw [hdrop, hz']
  have hsw : startsW (trimS l) "#" = true := by
    show startsList "#".data (trimS l).data = true
    rw [htd]
    rfl
  simp [classify, hsw]

/-- Classification of a line built as whitespace padding, a solid non-comment
word and a space-led tail: it is never a comment or a blank, its first field
is the word, and its kind is decided by the remaining fields. -/
theorem classify_shape (pre w tail : List Char)
    (hpre : ∀ c ∈ pre, goIsSpace c = true)
    (hw : w ≠ []) (hwa : ∀ c ∈ w, goIsSpace c = false)
    (hwh : w.head? ≠ some '#')
    (htail : tail = [] ∨ ∃ z, tail = ' ' :: z) :
    classify (String.mk (pre ++ w ++ tail)) =
      (match tailFields (rstrip tail) with
       | [] => LineKind.short
       | v :: vs =>
         if lowerS (String.mk w) = "host" then LineKind.host (joinSp (v :: vs))
         else LineKind.dir (lowerS (String.mk w)) (joinSp (v :: vs))) := by
  obtain ⟨hdata, hflds⟩ := fields_trim_shape pre w tail hpre hw hwa htail
  cases w with
  | nil => exact absurd rfl hw
  | cons c w0 =>
    have hchash : c ≠ '#' := by
      intro h
      exact hwh (by simp [h])
    have hsw2 : startsW (trimS (String.mk (pre ++ (c :: w0) ++ tail))) "#" = false := by
      show startsList "#".data (trimS (String.mk (pre ++ (c :: w0) ++ tail))).data = false
      rw [hdata]
      show startsList ['#'] (c :: (w0 ++ rstrip tail)) = false
      unfold startsList
      simp [Ne.symm hchash]
    have hne : trimS (String.mk (pre ++ (c :: w0) ++ tail)) ≠ "" := by
      intro h
      have := congrArg String.data h
      rw [hdata] at this
      simp at this
    simp only [classify, hsw2, hflds]
    simp only [Bool.false_eq_true, if_false]
    rw [if_neg hne]
    cases tailFields (rstrip tail) with
    | nil => rfl
    | cons v vs => rfl

/-! ### Parser step lemmas and the fold invariant principle -/

theorem processLine_comment {l : String} (st : ParseState)
    (h : classify l = LineKind.comment) :
    processLine st l = commentStep st l (st.lineNum + 1) := by
  unfold processLine
  rw [h]

theorem processLine_blank {l : String} (st : ParseState)
    (h : classify l = LineKind.blank) :
    processLine st l = blankStep st l (st.lineNum + 1) := by
  unfold processLine
  rw [h]

theorem processLine_short {l : String} (st : ParseState)
    (h : classify l = LineKind.short) :
    processLine st l = shortStep st l (st.lineNum + 1) := by
  unfold processLine
  rw [h]

theorem processLine_host {l v : String} (st : ParseState)
    (h : classify l = LineKind.host v) :
    processLine st l = hostStep st l v (st.lineNum + 1) := by
  unfold processLine
  rw [h]

theorem processLine_dir {l d v : String} (st : ParseState)
    (h : classify l = LineKind.dir d v) :
    processLine st l = otherDirStep st l d v (st.lineNum + 1) := by
  unfold processLine
  rw [h]

/-- Invariant preservation along the parser's fold, tracking the list of
already-processed lines. -/
theorem foldl_inv {P : ParseState → List String → Prop}
    (hstep : ∀ st done l, P st done → P (processLine st l) (done ++ [l])) :
    ∀ (ls : List String) (st : ParseState) (done : List String),
      P st done → P (ls.foldl processLine st) (done ++ ls) := by
  intro ls
  induction ls with
  | nil => intro st done h; simpa using h
  | cons l ls ih =>
    intro st done h
    have h1 := hstep st done l h
    have h2 := ih (processLine st l) (done ++ [l]) h1
    simpa [List.append_assoc] using h2


/-! ### Validity invariant and counting of global-options blocks (claim C2) -/

theorem isValid_star {e : HostEntry} (h : e.Host = "*") : e.IsValid = true := by
  unfold HostEntry.IsValid
  rw [h]
  rfl

theorem isValid_decode {e : HostEntry} (h : e.IsValid = true) :
    e.Host ≠ "*" → e.HostName ≠ "" := by
  intro hs
  unfold HostEntry.IsValid at h
  by_cases h0 : e.Host = ""
  · rw [if_pos h0] at h; exact absurd h (by simp)
  · rw [if_neg h0, if_neg hs] at h
    simpa using h

theorem setField_host (e : HostEntry) (d v : String) :
    (setField e d v).Host = e.Host := by
  unfold setField
  split <;> try rfl
  split <;> try rfl
  split <;> try rfl
  split <;> rfl

theorem starLines_snoc (done : List String) (l : String) :
    starLines (done ++ [l]) =
      starLines done + (if isStarHost l then 1 else 0) := by
  unfold starLines
  rw [List.filter_append, List.length_append]
  by_cases h : isStarHost l <;> simp [List.filter, h]

theorem starCount_append_valid (es : List HostEntry) (e : HostEntry) :
    starCount (es ++ [e]) = starCount es + (if e.Host = "*" then 1 else 0) := by
  unfold starCount
  rw [List.filter_append, List.length_append]
  by_cases h : e.Host = "*" <;> simp [List.filter, h]

/-! ### Shape of each parser step under known state conditions -/

theorem commentStep_close (st : ParseState) (l : String) (n : Nat) (e : HostEntry)
    (he : st.current = some e) (hcl : closeCond st l = true) :
    commentStep st l n =
      { st with
        entries :=
          if (closeEntry e st.currentHostLines (n - 1)).IsValid
          then st.entries ++ [closeEntry e st.currentHostLines (n - 1)]
          else st.entries,
        inHostBlock := false, current := none, currentHostLines := [],
        commentBuffer := st.commentBuffer ++ [l], lineNum := n } := by
  unfold commentStep closeEntry
  rw [if_pos hcl, he]
  rfl

theorem commentStep_keep (st : ParseState) (l : String) (n : Nat) (e : HostEntry)
    (he : st.current = some e) (hin : st.inHostBlock = true)
    (hcl : closeCond st l = false) :
    commentStep st l n =
      { st with
        currentHostLines := st.currentHostLines ++ [l],
        current := some { e with Comment := e.Comment ++ l ++ "\n" },
        lineNum := n } := by
  unfold commentStep
  rw [hcl]
  simp only [Bool.false_eq_true, if_false, hin, if_true, he]

theorem commentStep_outside (st : ParseState) (l : String) (n : Nat)
    (hin : st.inHostBlock = false) :
    commentStep st l n =
      { st with commentBuffer := st.commentBuffer ++ [l], lineNum := n } := by
  have hcl : closeCond st l = false := by
    unfold closeCond
    rw [hin]
    simp
  unfold commentStep
  rw [hcl]
  simp only [Bool.false_eq_true, if_false, hin]

theorem blankStep_in (st : ParseState) (l : String) (n : Nat) (e : HostEntry)
    (he : st.current = some e) (hin : st.inHostBlock = true) :
    blankStep st l n =
      { st with
        currentHostLines := st.currentHostLines ++ [l],
        current := some { e with Comment := e.Comment ++ l ++ "\n" },
        lineNum := n } := by
  unfold blankStep
  rw [hin]
  simp only [if_true, he]

theorem blankStep_out (st : ParseState) (l : String) (n : Nat)
    (hin : st.inHostBlock = false) :
    blankStep st l n = { st with lineNum := n } := by
  unfold blankStep
  rw [hin]
  simp only [Bool.false_eq_true, if_false]

theorem shortStep_in (st : ParseState) (l : String) (n : Nat)
    (hin : st.inHostBlock = true) :
    shortStep st l n =
      { st with currentHostLines := st.currentHostLines ++ [l], lineNum := n } := by
  unfold shortStep
  rw [hin]
  simp only [if_true]

theorem shortStep_out (st : ParseState) (l : String) (n : Nat)
    (hin : st.inHostBlock = false) :
    shortStep st l n = { st with lineNum := n } := by
  unfold shortStep
  rw [hin]
  simp only [Bool.false_eq_true, if_false]

theorem hostStep_open (st : ParseState) (l v : String) (n : Nat) (e : HostEntry)
    (he : st.current = some e) (hin : st.inHostBlock = true) :
    hostStep st l v n =
      { entries :=
          if (closeEntry e st.currentHostLines (n - 1)).IsValid
          then st.entries ++ [closeEntry e st.currentHostLines (n - 1)]
          else st.entries,
        standalone := st.standalone, current := some (newHostEntry st v n),
        commentBuffer := [], currentHostLines := st.commentBuffer ++ [l],
        lineNum := n, inHostBlock := true } := by
  unfold hostStep newHostEntry closeEntry
  rw [he, hin]

theorem hostStep_fresh (st : ParseState) (l v : String) (n : Nat)
    (h : st.current = none ∨ st.inHostBlock = false) :
    hostStep st l v n =
      { entries := st.entries,
        standalone := st.standalone, current := some (newHostEntry st v n),
        commentBuffer := [], currentHostLines := st.commentBuffer ++ [l],
        lineNum := n, inHostBlock := true } := by
  unfold hostStep newHostEntry
  rcases h with h | h
  · rw [h]
  · rw [h]
    rcases hc : st.current with _ | e <;> rfl

theorem otherDirStep_in (st : ParseState) (l d v : String) (n : Nat) (e : HostEntry)
    (he : st.current = some e) (hin : st.inHostBlock = true) :
    otherDirStep st l d v n =
      { st with
        currentHostLines := st.currentHostLines ++ [l],
        current := some (setField e d v),
        lineNum := n } := by
  unfold otherDirStep
  simp only [hin, Bool.not_true, Bool.false_and, Bool.false_eq_true, if_false, he]

theorem otherDirStep_out (st : ParseState) (l d v : String) (n : Nat)
    (hin : st.inHostBlock = false) :
    otherDirStep st l d v n =
      { st with
        standalone := st.standalone ++ st.commentBuffer,
        commentBuffer := [], lineNum := n } := by
  unfold otherDirStep
  rcases hbuf : st.commentBuffer with _ | ⟨c, cs⟩
  · rcases hc : st.current with _ | e <;>
      simp [hin, hbuf, hc, List.append_nil]
  · rcases hc : st.current with _ | e <;>
      simp [hin, hbuf, hc]

theorem closeCond_inHB {st : ParseState} {l : String}
    (h : closeCond st l = true) : st.inHostBlock = true := by
  unfold closeCond at h
  simp only [Bool.and_eq_true] at h
  exact h.1.1.2

theorem closeEntry_host (e : HostEntry) (hl : List String) (n : Nat) :
    (closeEntry e hl n).Host = e.Host := rfl

theorem inv2_step : ∀ (st : ParseState) (done : List String) (l : String),
    Inv2 st done → Inv2 (processLine st l) (done ++ [l]) := by
  intro st done l h
  obtain ⟨hsome, hvalid, hstar⟩ := h
  unfold Inv2
  cases hc : classify l with
  | comment =>
    rw [processLine_comment st hc]
    have hns : isStarHost l = false := by unfold isStarHost; rw [hc]
    rw [starLines_snoc, hns]
    simp only [Bool.false_eq_true, if_false, Nat.add_zero]
    by_cases hcl : closeCond st l = true
    · have hin := closeCond_inHB hcl
      obtain ⟨e, he⟩ := Option.isSome_iff_exists.1 (hsome hin)
      rw [commentStep_close st l (st.lineNum + 1) e he hcl]
      have hopen : openStar st = if e.Host = "*" then 1 else 0 := by
        unfold openStar
        rw [he, hin]
      refine ⟨by simp, ?_, ?_⟩
      · intro x hx
        simp only at hx
        by_cases hv : (closeEntry e st.currentHostLines (st.lineNum + 1 - 1)).IsValid = true
        · rw [if_pos hv] at hx
          rcases List.mem_append.1 hx with h1 | h2
          · exact hvalid x h1
          · rw [List.mem_singleton.1 h2]; exact hv
        · rw [if_neg hv] at hx
          exact hvalid x hx
      · have hop0 : openStar
            { st with
              entries :=
                if (closeEntry e st.currentHostLines (st.lineNum + 1 - 1)).IsValid
                then st.entries ++ [closeEntry e st.currentHostLines (st.lineNum + 1 - 1)]
                else st.entries,
              inHostBlock := false, current := none, currentHostLines := [],
              commentBuffer := st.commentBuffer ++ [l],
              lineNum := st.lineNum + 1 } = 0 := rfl
        rw [hop0]
        rw [hopen] at hstar
        by_cases hes : e.Host = "*"
        · have hv : (closeEntry e st.currentHostLines (st.lineNum + 1 - 1)).IsValid = true :=
            isValid_star hes
          rw [if_pos hv, starCount_append_valid, closeEntry_host]
          rw [if_pos hes] at hstar ⊢
          omega
        · rw [if_neg hes] at hstar
          by_cases hv : (closeEntry e st.currentHostLines (st.lineNum + 1 - 1)).IsValid = true
          · rw [if_pos hv, starCount_append_valid, closeEntry_host]
            rw [if_neg hes]
            omega
          · rw [if_neg hv]
            show starCount st.entries + 0 = starLines done
            omega
    · have hcl' : closeCond st l = false := by
        cases hb : closeCond st l
        · rfl
        · exact absurd hb hcl
      by_cases hin : st.inHostBlock = true
      · obtain ⟨e, he⟩ := Option.isSome_iff_exists.1 (hsome hin)
        rw [commentStep_keep st l (st.lineNum + 1) e he hin hcl']
        refine ⟨fun _ => rfl, hvalid, ?_⟩
        have hop : openStar
            { st with
              currentHostLines := st.currentHostLines ++ [l],
              current := some { e with Comment := e.Comment ++ l ++ "\n" },
              lineNum := st.lineNum + 1 } = openStar st := by
          unfold openStar
          rw [he]
          simp [hin]
        rw [hop]
        exact hstar
      · have hin' : st.inHostBlock = false := by
          cases hb : st.inHostBlock
          · rfl
          · exact absurd hb hin
        rw [commentStep_outside st l (st.lineNum + 1) hin']
        refine ⟨fun hh => by simp [hin'] at hh, hvalid, ?_⟩
        have hop : openStar
            { st with
              commentBuffer := st.commentBuffer ++ [l],
              lineNum := st.lineNum + 1 } = openStar st := rfl
        rw [hop]
        exact hstar
  | blank =>
    rw [processLine_blank st hc]
    have hns : isStarHost l = false := by unfold isStarHost; rw [hc]
    rw [starLines_snoc, hns]
    simp only [Bool.false_eq_true, if_false, Nat.add_zero]
    by_cases hin : st.inHostBlock = true
    · obtain ⟨e, he⟩ := Option.isSome_iff_exists.1 (hsome hin)
      rw [blankStep_in st l (st.lineNum + 1) e he hin]
      refine ⟨fun _ => rfl, hvalid, ?_⟩
      have hop : openStar
          { st with
            currentHostLines := st.currentHostLines ++ [l],
            current := some { e with Comment := e.Comment ++ l ++ "\n" },
            lineNum := st.lineNum + 1 } = openStar st := by
        unfold openStar
        rw [he]
        simp [hin]
      rw [hop]
      exact hstar
    · have hin' : st.inHostBlock = false := by
        cases hb : st.inHostBlock
        · rfl
        · exact absurd hb hin
      rw [blankStep_out st l (st.lineNum + 1) hin']
      exact ⟨fun hh => absurd hh hin, hvalid, hstar⟩
  | short =>
    rw [processLine_short st hc]
    have hns : isStarHost l = false := by unfold isStarHost; rw [hc]
    rw [starLines_snoc, hns]
    simp only [Bool.false_eq_true, if_false, Nat.add_zero]
    by_cases hin : st.inHostBlock = true
    · rw [shortStep_in st l (st.lineNum + 1) hin]
      refine ⟨fun _ => hsome hin, hvalid, ?_⟩
      have hop : openStar
          { st with
            currentHostLines := st.currentHostLines ++ [l],
            lineNum := st.lineNum + 1 } = openStar st := rfl
      rw [hop]
      exact hstar
    · have hin' : st.inHostBlock = false := by
        cases hb : st.inHostBlock
        · rfl
        · exact absurd hb hin
      rw [shortStep_out st l (st.lineNum + 1) hin']
      exact ⟨fun hh => absurd hh hin, hvalid, hstar⟩
  | host v =>
    rw [processLine_host st hc]
    have hsl : isStarHost l = (decide (v = "*")) := by
      unfold isStarHost
      rw [hc]
    rw [starLines_snoc, hsl]
    by_cases hinc : st.inHostBlock = true ∧ st.current.isSome
    · obtain ⟨hin, hs⟩ := hinc
      obtain ⟨e, he⟩ := Option.isSome_iff_exists.1 hs
      rw [hostStep_open st l v (st.lineNum + 1) e he hin]
      have hopen : openStar st = if e.Host = "*" then 1 else 0 := by
        unfold openStar
        rw [he, hin]
      refine ⟨fun _ => rfl, ?_, ?_⟩
      · intro x hx
        simp only at hx
        by_cases hv : (closeEntry e st.currentHostLines (st.lineNum + 1 - 1)).IsValid = true
        · rw [if_pos hv] at hx
          rcases List.mem_append.1 hx with h1 | h2
          · exact hvalid x h1
          · rw [List.mem_singleton.1 h2]; exact hv
        · rw [if_neg hv] at hx
          exact hvalid x hx
      · have hopn : openStar
            { entries :=
                if (closeEntry e st.currentHostLines (st.lineNum + 1 - 1)).IsValid
                then st.entries ++ [closeEntry e st.currentHostLines (st.lineNum + 1 - 1)]
                else st.entries,
              standalone := st.standalone,
              current := some (newHostEntry st v (st.lineNum + 1)),
              commentBuffer := [], currentHostLines := st.commentBuffer ++ [l],
              lineNum := st.lineNum + 1, inHostBlock := true } =
            if v = "*" then 1 else 0 := by
          unfold openStar newHostEntry
          rfl
        rw [hopn]
        rw [hopen] at hstar
        by_cases hes : e.Host = "*"
        · have hv : (closeEntry e st.currentHostLines (st.lineNum + 1 - 1)).IsValid = true :=
            isValid_star hes
          rw [if_pos hv, starCount_append_valid, closeEntry_host]
          rw [if_pos hes] at hstar ⊢
          by_cases hvv : v = "*" <;> simp [hvv] <;> omega
        · rw [if_neg hes] at hstar
          by_cases hv : (closeEntry e st.currentHostLines (st.lineNum + 1 - 1)).IsValid = true
          · rw [if_pos hv, starCount_append_valid, closeEntry_host]
            rw [if_neg hes]
            by_cases hvv : v = "*" <;> simp [hvv] <;> omega
          · rw [if_neg hv]
            by_cases hvv : v = "*" <;> simp [hvv] <;> omega
    · have hfr : st.current = none ∨ st.inHostBlock = false := by
        by_cases h1 : st.inHostBlock = true
        · left
          rcases hcur : st.current with _ | e
          · rfl
          · exact absurd ⟨h1, by rw [hcur]; rfl⟩ hinc
        · right
          cases hb : st.inHostBlock
          · rfl
          · exact absurd hb h1
      rw [hostStep_fresh st l v (st.lineNum + 1) hfr]
      have hop0 : openStar st = 0 := by
        unfold openStar
        rcases hfr with h | h
        · rw [h]
        · rw [h]
          rcases hcur : st.current with _ | e <;> rfl
      rw [hop0] at hstar
      refine ⟨fun _ => rfl, hvalid, ?_⟩
      have hopn : openStar
          { entries := st.entries,
            standalone := st.standalone,
            current := some (newHostEntry st v (st.lineNum + 1)),
            commentBuffer := [], currentHostLines := st.commentBuffer ++ [l],
            lineNum := st.lineNum + 1, inHostBlock := true } =
          if v = "*" then 1 else 0 := by
        unfold openStar newHostEntry
        rfl
      rw [hopn]
      by_cases hvv : v = "*" <;> simp [hvv] <;> omega
  | dir d v =>
    rw [processLine_dir st hc]
    have hns : isStarHost l = false := by unfold isStarHost; rw [hc]
    rw [starLines_snoc, hns]
    simp only [Bool.false_eq_true, if_false, Nat.add_zero]
    by_cases hin : st.inHostBlock = true
    · obtain ⟨e, he⟩ := Option.isSome_iff_exists.1 (hsome hin)
      rw [otherDirStep_in st l d v (st.lineNum + 1) e he hin]
      refine ⟨fun _ => rfl, hvalid, ?_⟩
      have hop : openStar
          { st with
            currentHostLines := st.currentHostLines ++ [l],
            current := some (setField e d v),
            lineNum := st.lineNum + 1 } = openStar st := by
        unfold openStar
        rw [he]
        simp [hin, setField_host]
      rw [hop]
      exact hstar
    · have hin' : st.inHostBlock = false := by
        cases hb : st.inHostBlock
        · rfl
        · exact absurd hb hin
      rw [otherDirStep_out st l d v (st.lineNum + 1) hin']
      refine ⟨fun hh => absurd hh hin, hvalid, ?_⟩
      have hop : openStar
          { st with
            standalone := st.standalone ++ st.commentBuffer,
            commentBuffer := [], lineNum := st.lineNum + 1 } = openStar st := rfl
      rw [hop]
      exact hstar

theorem parse_inv2 (ls : List String) :
    Inv2 (ls.foldl processLine initState) ls := by
  have h0 : Inv2 initState [] := by
    refine ⟨?_, ?_, rfl⟩
    · intro h
      simp [initState] at h
    · intro e he
      simp [initState] at he
  have h := foldl_inv inv2_step ls initState [] h0
  simpa using h

theorem parseLines_final (ls : List String)
    (hvalid : ∀ e ∈ (ls.foldl processLine initState).entries, e.IsValid = true) :
    (∀ e ∈ (parseLines ls).1, e.IsValid = true) ∧
    starCount (parseLines ls).1 =
      starCount (ls.foldl processLine initState).entries +
        openStar (ls.foldl processLine initState) := by
  unfold parseLines
  rcases hc : (ls.foldl processLine initState).current with _ | e
  · have hop : openStar (ls.foldl processLine initState) = 0 := by
      unfold openStar
      rw [hc]
    rw [hop]
    simp only [hc]
    exact ⟨hvalid, rfl⟩
  · cases hb : (ls.foldl processLine initState).inHostBlock
    · have hop : openStar (ls.foldl processLine initState) = 0 := by
        unfold openStar
        rw [hc, hb]
      rw [hop]
      simp only [hc, hb]
      exact ⟨hvalid, rfl⟩
    · have hop : openStar (ls.foldl processLine initState) =
          if e.Host = "*" then 1 else 0 := by
        unfold openStar
        rw [hc, hb]
      rw [hop]
      simp only [hc, hb]
      by_cases hv : ({ e with
          RawLines := (ls.foldl processLine initState).currentHostLines,
          EndLine := (ls.foldl processLine initState).lineNum } : HostEntry).IsValid = true
      · rw [if_pos hv]
        constructor
        · intro x hx
          rcases List.mem_append.1 hx with h1 | h2
          · exact hvalid x h1
          · rw [List.mem_singleton.1 h2]
            exact hv
        · rw [starCount_append_valid]
      · rw [if_neg hv]
        refine ⟨hvalid, ?_⟩
        by_cases hes : e.Host = "*"
        · exact absurd (isValid_star hes) hv
        · rw [if_neg hes]
          omega


/-! ### Raw-line span invariant (claim C7) -/

theorem lineSlice_keep {done : List String} {l : String} {a b : Nat}
    (hb : b ≤ done.length) :
    lineSlice (done ++ [l]) a b = lineSlice done a b := by
  unfold lineSlice
  rw [List.take_append_of_le_length hb]

theorem lineSlice_ext {done : List String} {l : String} {a : Nat}
    (hb : a ≤ done.length + 1) :
    lineSlice (done ++ [l]) a (done.length + 1) =
      lineSlice done a done.length ++ [l] := by
  unfold lineSlice
  have hlen : (done ++ [l]).length = done.length + 1 := by simp
  have h1 : (done ++ [l]).take (done.length + 1) = done ++ [l] := by
    rw [← hlen]
    exact List.take_length _
  rw [h1, List.take_length done,
    List.drop_append_of_le_length (by omega : a - 1 ≤ done.length)]

theorem lineSlice_single (done : List String) (l : String) :
    lineSlice (done ++ [l]) (done.length + 1) (done.length + 1) = [l] := by
  unfold lineSlice
  have hlen : (done ++ [l]).length = done.length + 1 := by simp
  have h1 : (done ++ [l]).take (done.length + 1) = done ++ [l] := by
    rw [← hlen]
    exact List.take_length _
  rw [h1]
  show (done ++ [l]).drop (done.length + 1 - 1) = [l]
  have : done.length + 1 - 1 = done.length := rfl
  rw [this, List.drop_append_of_le_length (Nat.le_refl _), List.drop_length]
  rfl

theorem entries_keep {done : List String} {l : String} {es : List HostEntry}
    (h : ∀ e ∈ es, e.EndLine ≤ done.length ∧ ∃ pre, commentsOnly pre ∧
      e.RawLines = pre ++ lineSlice done e.StartLine e.EndLine) :
    ∀ e ∈ es, e.EndLine ≤ (done ++ [l]).length ∧ ∃ pre, commentsOnly pre ∧
      e.RawLines = pre ++ lineSlice (done ++ [l]) e.StartLine e.EndLine := by
  intro e he
  obtain ⟨hb, pre, hpre, hr⟩ := h e he
  refine ⟨by simp; omega, pre, hpre, ?_⟩
  rw [lineSlice_keep hb]
  exact hr

theorem commentsOnly_snoc {pre : List String} {l : String}
    (h : commentsOnly pre) (hl : classify l = LineKind.comment) :
    commentsOnly (pre ++ [l]) := by
  intro x hx
  rcases List.mem_append.1 hx with h1 | h2
  · exact h x h1
  · rw [List.mem_singleton.1 h2]
    exact hl

theorem setField_startLine (e : HostEntry) (d v : String) :
    (setField e d v).StartLine = e.StartLine := by
  unfold setField
  split <;> try rfl
  split <;> try rfl
  split <;> try rfl
  split <;> rfl

theorem inv7_step : ∀ (st : ParseState) (done : List String) (l : String),
    Inv7 st done → Inv7 (processLine st l) (done ++ [l]) := by
  intro st done l h
  obtain ⟨hlen, hbuf, hopen, hent⟩ := h
  unfold Inv7
  have hlen' : (done ++ [l]).length = done.length + 1 := by simp
  cases hc : classify l with
  | comment =>
    rw [processLine_comment st hc]
    by_cases hcl : closeCond st l = true
    · have hin := closeCond_inHB hcl
      obtain ⟨e, he, hs1, hs2, pre, hpre, hhl⟩ := hopen hin
      rw [commentStep_close st l (st.lineNum + 1) e he hcl]
      refine ⟨by simp [hlen], commentsOnly_snoc hbuf hc, ?_, ?_⟩
      · intro hh
        simp at hh
      · show ∀ x ∈ (if (closeEntry e st.currentHostLines (st.lineNum + 1 - 1)).IsValid
            then st.entries ++ [closeEntry e st.currentHostLines (st.lineNum + 1 - 1)]
            else st.entries), _
        have hnew : (closeEntry e st.currentHostLines (st.lineNum + 1 - 1)).EndLine
              ≤ (done ++ [l]).length ∧
            ∃ pre2, commentsOnly pre2 ∧
              (closeEntry e st.currentHostLines (st.lineNum + 1 - 1)).RawLines =
                pre2 ++ lineSlice (done ++ [l])
                  (closeEntry e st.currentHostLines (st.lineNum + 1 - 1)).StartLine
                  (closeEntry e st.currentHostLines (st.lineNum + 1 - 1)).EndLine := by
          constructor
          · show st.lineNum + 1 - 1 ≤ _
            rw [hlen']
            omega
          · refine ⟨pre, hpre, ?_⟩
            show st.currentHostLines = pre ++ lineSlice (done ++ [l]) e.StartLine (st.lineNum + 1 - 1)
            have h11 : st.lineNum + 1 - 1 = done.length := by omega
            rw [h11, lineSlice_keep (Nat.le_refl _)]
            rw [hhl]
        by_cases hv : (closeEntry e st.currentHostLines (st.lineNum + 1 - 1)).IsValid = true
        · rw [if_pos hv]
          intro x hx
          rcases List.mem_append.1 hx with h1 | h2
          · exact entries_keep hent x h1
          · rw [List.mem_singleton.1 h2]
            exact hnew
        · rw [if_neg hv]
          exact entries_keep hent
    · have hcl' : closeCond st l = false := by
        cases hb : closeCond st l
        · rfl
        · exact absurd hb hcl
      by_cases hin : st.inHostBlock = true
      · obtain ⟨e, he, hs1, hs2, pre, hpre, hhl⟩ := hopen hin
        rw [commentStep_keep st l (st.lineNum + 1) e he hin hcl']
        refine ⟨by simp [hlen], hbuf, ?_, entries_keep hent⟩
        intro _
        refine ⟨{ e with Comment := e.Comment ++ l ++ "\n" }, rfl, hs1, ?_, pre, hpre, ?_⟩
        · show e.StartLine ≤ (done ++ [l]).length
          rw [hlen']
          omega
        · show st.currentHostLines ++ [l] = pre ++ lineSlice (done ++ [l]) e.StartLine (done ++ [l]).length
          rw [hlen', lineSlice_ext (by omega), hhl, List.append_assoc]
      · have hin' : st.inHostBlock = false := by
          cases hb : st.inHostBlock
          · rfl
          · exact absurd hb hin
        rw [commentStep_outside st l (st.lineNum + 1) hin']
        refine ⟨by simp [hlen], commentsOnly_snoc hbuf hc, ?_, entries_keep hent⟩
        intro hh
        exact absurd hh (by simp [hin'])
  | blank =>
    rw [processLine_blank st hc]
    by_cases hin : st.inHostBlock = true
    · obtain ⟨e, he, hs1, hs2, pre, hpre, hhl⟩ := hopen hin
      rw [blankStep_in st l (st.lineNum + 1) e he hin]
      refine ⟨by simp [hlen], hbuf, ?_, entries_keep hent⟩
      intro _
      refine ⟨{ e with Comment := e.Comment ++ l ++ "\n" }, rfl, hs1, ?_, pre, hpre, ?_⟩
      · show e.StartLine ≤ (done ++ [l]).length
        rw [hlen']
        omega
      · show st.currentHostLines ++ [l] = pre ++ lineSlice (done ++ [l]) e.StartLine (done ++ [l]).length
        rw [hlen', lineSlice_ext (by omega), hhl, List.append_assoc]
    · have hin' : st.inHostBlock = false := by
        cases hb : st.inHostBlock
        · rfl
        · exact absurd hb hin
      rw [blankStep_out st l (st.lineNum + 1) hin']
      refine ⟨by simp [hlen], hbuf, ?_, entries_keep hent⟩
      intro hh
      exact absurd hh (by simp [hin'])
  | short =>
    rw [processLine_short st hc]
    by_cases hin : st.inHostBlock = true
    · obtain ⟨e, he, hs1, hs2, pre, hpre, hhl⟩ := hopen hin
      rw [shortStep_in st l (st.lineNum + 1) hin]
      refine ⟨by simp [hlen], hbuf, ?_, entries_keep hent⟩
      intro _
      refine ⟨e, he, hs1, ?_, pre, hpre, ?_⟩
      · show e.StartLine ≤ (done ++ [l]).length
        rw [hlen']
        omega
      · show st.currentHostLines ++ [l] = pre ++ lineSlice (done ++ [l]) e.StartLine (done ++ [l]).length
        rw [hlen', lineSlice_ext (by omega), hhl, List.append_assoc]
    · have hin' : st.inHostBlock = false := by
        cases hb : st.inHostBlock
        · rfl
        · exact absurd hb hin
      rw [shortStep_out st l (st.lineNum + 1) hin']
      refine ⟨by simp [hlen], hbuf, ?_, entries_keep hent⟩
      intro hh
      exact absurd hh (by simp [hin'])
  | host v =>
    rw [processLine_host st hc]
    have hnewOpen : ∀ (E : List HostEntry),
        (∀ x ∈ E, x.EndLine ≤ (done ++ [l]).length ∧ ∃ pre2, commentsOnly pre2 ∧
          x.RawLines = pre2 ++ lineSlice (done ++ [l]) x.StartLine x.EndLine) →
        (st.lineNum + 1 = (done ++ [l]).length ∧
          commentsOnly ([] : List String) ∧
          (True → ∃ e, some (newHostEntry st v (st.lineNum + 1)) = some e ∧
            1 ≤ e.StartLine ∧ e.StartLine ≤ (done ++ [l]).length ∧
            ∃ pre, commentsOnly pre ∧
              st.commentBuffer ++ [l] =
                pre ++ lineSlice (done ++ [l]) e.StartLine (done ++ [l]).length)) := by
      intro E _
      refine ⟨by simp [hlen], by intro x hx; simp at hx, ?_⟩
      intro _
      refine ⟨newHostEntry st v (st.lineNum + 1), rfl, ?_, ?_, st.commentBuffer, hbuf, ?_⟩
      · show 1 ≤ st.lineNum + 1
        omega
      · show st.lineNum + 1 ≤ (done ++ [l]).length
        rw [hlen']
        omega
      · show st.commentBuffer ++ [l] =
          st.commentBuffer ++ lineSlice (done ++ [l]) (st.lineNum + 1) (done ++ [l]).length
        rw [hlen', hlen, lineSlice_single]
    by_cases hio : st.inHostBlock = true ∧ st.current.isSome
    · obtain ⟨hin, hs⟩ := hio
      obtain ⟨e, he, hs1, hs2, pre, hpre, hhl⟩ := hopen hin
      rw [hostStep_open st l v (st.lineNum + 1) e he hin]
      have hnew : (closeEntry e st.currentHostLines (st.lineNum + 1 - 1)).EndLine
            ≤ (done ++ [l]).length ∧
          ∃ pre2, commentsOnly pre2 ∧
            (closeEntry e st.currentHostLines (st.lineNum + 1 - 1)).RawLines =
              pre2 ++ lineSlice (done ++ [l])
                (closeEntry e st.currentHostLines (st.lineNum + 1 - 1)).StartLine
                (closeEntry e st.currentHostLines (st.lineNum + 1 - 1)).EndLine := by
        constructor
        · show st.lineNum + 1 - 1 ≤ _
          rw [hlen']
          omega
        · refine ⟨pre, hpre, ?_⟩
          show st.currentHostLines = pre ++ lineSlice (done ++ [l]) e.StartLine (st.lineNum + 1 - 1)
          have h11 : st.lineNum + 1 - 1 = done.length := by omega
          rw [h11, lineSlice_keep (Nat.le_refl _)]
          rw [hhl]
      obtain ⟨g1, g2, g3⟩ := hnewOpen st.entries (entries_keep hent)
      refine ⟨g1, g2, fun _ => g3 trivial, ?_⟩
      by_cases hv : (closeEntry e st.currentHostLines (st.lineNum + 1 - 1)).IsValid = true
      · rw [if_pos hv]
        intro x hx
        rcases List.mem_append.1 hx with h1 | h2
        · exact entries_keep hent x h1
        · rw [List.mem_singleton.1 h2]
          exact hnew
      · rw [if_neg hv]
        exact entries_keep hent
    · have hfr : st.current = none ∨ st.inHostBlock = false := by
        by_cases h1 : st.inHostBlock = true
        · left
          rcases hcur : st.current with _ | e
          · rfl
          · exact absurd ⟨h1, by rw [hcur]; rfl⟩ hio
        · right
          cases hb : st.inHostBlock
          · rfl
          · exact absurd hb h1
      rw [hostStep_fresh st l v (st.lineNum + 1) hfr]
      obtain ⟨g1, g2, g3⟩ := hnewOpen st.entries (entries_keep hent)
      exact ⟨g1, g2, fun _ => g3 trivial, entries_keep hent⟩
  | dir d v =>
    rw [processLine_dir st hc]
    by_cases hin : st.inHostBlock = true
    · obtain ⟨e, he, hs1, hs2, pre, hpre, hhl⟩ := hopen hin
      rw [otherDirStep_in st l d v (st.lineNum + 1) e he hin]
      refine ⟨by simp [hlen], hbuf, ?_, entries_keep hent⟩
      intro _
      refine ⟨setField e d v, rfl, ?_, ?_, pre, hpre, ?_⟩
      · rw [setField_startLine]
        exact hs1
      · rw [setField_startLine]
        show e.StartLine ≤ (done ++ [l]).length
        rw [hlen']
        omega
      · rw [setField_startLine]
        show st.currentHostLines ++ [l] = pre ++ lineSlice (done ++ [l]) e.StartLine (done ++ [l]).length
        rw [hlen', lineSlice_ext (by omega), hhl, List.append_assoc]
    · have hin' : st.inHostBlock = false := by
        cases hb : st.inHostBlock
        · rfl
        · exact absurd hb hin
      rw [otherDirStep_out st l d v (st.lineNum + 1) hin']
      refine ⟨by simp [hlen], by intro x hx; simp at hx, ?_, entries_keep hent⟩
      intro hh
      exact absurd hh (by simp [hin'])

theorem parse_inv7 (ls : List String) :
    Inv7 (ls.foldl processLine initState) ls := by
  have h0 : Inv7 initState [] := by
    refine ⟨rfl, ?_, ?_, ?_⟩
    · intro x hx
      simp [initState] at hx
    · intro h
      simp [initState] at h
    · intro e he
      simp [initState] at he
  simpa using foldl_inv inv7_step ls initState [] h0

theorem parseLines_rawlines (ls : List String) :
    ∀ e ∈ (parseLines ls).1, ∃ pre, commentsOnly pre ∧
      e.RawLines = pre ++ lineSlice ls e.StartLine e.EndLine := by
  obtain ⟨hlen, hbuf, hopen, hent⟩ := parse_inv7 ls
  intro e he
  revert he
  unfold parseLines
  rcases hc : (ls.foldl processLine initState).current with _ | x
  · simp only [hc]
    intro he
    exact (hent e he).2
  · cases hb : (ls.foldl processLine initState).inHostBlock
    · simp only [hc, hb]
      intro he
      exact (hent e he).2
    · simp only [hc, hb]
      obtain ⟨x', hx', hs1, hs2, pre, hpre, hhl⟩ := hopen hb
      rw [hc] at hx'
      have hxx : x = x' := Option.some_injective _ hx'
      subst hxx
      by_cases hv : ({ x with
          RawLines := (ls.foldl processLine initState).currentHostLines,
          EndLine := (ls.foldl processLine initState).lineNum } : HostEntry).IsValid = true
      · rw [if_pos hv]
        intro he
        rcases List.mem_append.1 he with h1 | h2
        · exact (hent e h1).2
        · rw [List.mem_singleton.1 h2]
          refine ⟨pre, hpre, ?_⟩
          show (ls.foldl processLine initState).currentHostLines =
            pre ++ lineSlice ls x.StartLine (ls.foldl processLine initState).lineNum
          rw [hlen]
          exact hhl
      · rw [if_neg hv]
        intro he
        exact (hent e he).2


/-! ### Directive-line bookkeeping and classification inversion -/

theorem dirValues_cons_nd {l d : String} (h : isDirLine l d = false)
    (rest : List String) :
    dirValues (l :: rest) d = dirValues rest d := by
  unfold dirValues
  rw [List.filterMap_cons]
  unfold isDirLine at h
  cases hc : classify l with
  | dir d' v =>
    rw [hc] at h
    simp only [hc]
    rw [if_neg (by simpa using h)]
  | comment => simp [hc]
  | blank => simp [hc]
  | short => simp [hc]
  | host v => simp [hc]

theorem dirValues_cons_d {l d v0 : String} (h : classify l = LineKind.dir d v0)
    (rest : List String) :
    dirValues (l :: rest) d = v0 :: dirValues rest d := by
  unfold dirValues
  rw [List.filterMap_cons]
  simp [h]

theorem lastD_cons_nd {l d : String} (h : isDirLine l d = false)
    (rest : List String) (dflt : String) :
    lastD (l :: rest) d dflt = lastD rest d dflt := by
  unfold lastD
  rw [dirValues_cons_nd h]

theorem lastD_cons_d {l d v0 : String} (h : classify l = LineKind.dir d v0)
    (rest : List String) (dflt : String) :
    lastD (l :: rest) d dflt = lastD rest d v0 := by
  unfold lastD
  rw [dirValues_cons_d h]
  exact List.getLastD_cons dflt v0 _

theorem lastD_nil (d dflt : String) : lastD [] d dflt = dflt := rfl

theorem setField_hostName (e : HostEntry) (d v : String) :
    (setField e d v).HostName = if d = "hostname" then v else e.HostName := by
  unfold setField
  by_cases h1 : d = "hostname"
  · simp [h1]
  · rw [if_neg h1, if_neg h1]
    by_cases h2 : d = "user"
    · simp [h2]
    · rw [if_neg h2]
      by_cases h3 : d = "port"
      · simp [h3]
      · rw [if_neg h3]
        by_cases h4 : d = "identityfile"
        · simp [h4]
        · rw [if_neg h4]

theorem setField_user (e : HostEntry) (d v : String) :
    (setField e d v).User = if d = "user" then v else e.User := by
  unfold setField
  by_cases h1 : d = "hostname"
  · have : d ≠ "user" := by rw [h1]; intro h; exact absurd h (by decide)
    simp [h1, this]
  · rw [if_neg h1]
    by_cases h2 : d = "user"
    · simp [h2]
    · rw [if_neg h2, if_neg h2]
      by_cases h3 : d = "port"
      · simp [h3]
      · rw [if_neg h3]
        by_cases h4 : d = "identityfile"
        · simp [h4]
        · rw [if_neg h4]

theorem setField_port (e : HostEntry) (d v : String) :
    (setField e d v).Port = if d = "port" then v else e.Port := by
  unfold setField
  by_cases h1 : d = "hostname"
  · have : d ≠ "port" := by rw [h1]; intro h; exact absurd h (by decide)
    simp [h1, this]
  · rw [if_neg h1]
    by_cases h2 : d = "user"
    · have : d ≠ "port" := by rw [h2]; intro h; exact absurd h (by decide)
      simp [h2, this]
    · rw [if_neg h2]
      by_cases h3 : d = "port"
      · simp [h3]
      · rw [if_neg h3, if_neg h3]
        by_cases h4 : d = "identityfile"
        · simp [h4]
        · rw [if_neg h4]

theorem setField_identityFile (e : HostEntry) (d v : String) :
    (setField e d v).IdentityFile = if d = "identityfile" then v else e.IdentityFile := by
  unfold setField
  by_cases h1 : d = "hostname"
  · have : d ≠ "identityfile" := by rw [h1]; intro h; exact absurd h (by decide)
    simp [h1, this]
  · rw [if_neg h1]
    by_cases h2 : d = "user"
    · have : d ≠ "identityfile" := by rw [h2]; intro h; exact absurd h (by decide)
      simp [h2, this]
    · rw [if_neg h2]
      by_cases h3 : d = "port"
      · have : d ≠ "identityfile" := by rw [h3]; intro h; exact absurd h (by decide)
        simp [h3, this]
      · rw [if_neg h3]
        by_cases h4 : d = "identityfile"
        · simp [h4]
        · rw [if_neg h4, if_neg h4]

theorem setField_description (e : HostEntry) (d v : String) :
    (setField e d v).Description = e.Description := by
  unfold setField
  split <;> try rfl
  split <;> try rfl
  split <;> try rfl
  split <;> rfl

/-- Exhaustive description of `classify`: exactly one of the five dispatch
outcomes holds, together with the facts about the trimmed line and its
fields that produced it. -/
theorem classify_cases (l : String) :
    (startsW (trimS l) "#" = true ∧ classify l = LineKind.comment) ∨
    (startsW (trimS l) "#" = false ∧ trimS l = "" ∧ classify l = LineKind.blank) ∨
    (startsW (trimS l) "#" = false ∧ trimS l ≠ "" ∧
      (((fields (trimS l) = [] ∨ ∃ d0, fields (trimS l) = [d0]) ∧
          classify l = LineKind.short) ∨
       ∃ d0 v0 vs, fields (trimS l) = d0 :: v0 :: vs ∧
         ((lowerS d0 = "host" ∧ classify l = LineKind.host (joinSp (v0 :: vs))) ∨
          (lowerS d0 ≠ "host" ∧
            classify l = LineKind.dir (lowerS d0) (joinSp (v0 :: vs)))))) := by
  by_cases h1 : startsW (trimS l) "#" = true
  · exact Or.inl ⟨h1, by unfold classify; rw [if_pos h1]⟩
  · have h1' : startsW (trimS l) "#" = false := by
      cases hb : startsW (trimS l) "#"
      · rfl
      · exact absurd hb h1
    right
    by_cases h2 : trimS l = ""
    · exact Or.inl ⟨h1', h2, by unfold classify; rw [if_neg h1, if_pos h2]⟩
    · right
      refine ⟨h1', h2, ?_⟩
      have hcl : classify l =
          (match fields (trimS l) with
           | d :: v :: vs =>
             if lowerS d = "host" then LineKind.host (joinSp (v :: vs))
             else LineKind.dir (lowerS d) (joinSp (v :: vs))
           | _ => LineKind.short) := by
        unfold classify
        rw [if_neg h1, if_neg h2]
      rcases hf : fields (trimS l) with _ | ⟨d0, rest⟩
      · refine Or.inl ⟨Or.inl rfl, ?_⟩
        rw [hcl, hf]
      · rcases rest with _ | ⟨v0, vs⟩
        · refine Or.inl ⟨Or.inr ⟨d0, rfl⟩, ?_⟩
          rw [hcl, hf]
        · refine Or.inr ⟨d0, v0, vs, rfl, ?_⟩
          by_cases hh : lowerS d0 = "host"
          · refine Or.inl ⟨hh, ?_⟩
            rw [hcl, hf]
            show (if lowerS d0 = "host" then LineKind.host (joinSp (v0 :: vs))
              else LineKind.dir (lowerS d0) (joinSp (v0 :: vs))) = _
            rw [if_pos hh]
          · refine Or.inr ⟨hh, ?_⟩
            rw [hcl, hf]
            show (if lowerS d0 = "host" then LineKind.host (joinSp (v0 :: vs))
              else LineKind.dir (lowerS d0) (joinSp (v0 :: vs))) = _
            rw [if_neg hh]

theorem classify_comment_char {l : String} (h : classify l = LineKind.comment) :
    startsW (trimS l) "#" = true := by
  rcases classify_cases l with ⟨h1, _⟩ | ⟨_, _, hc⟩ | ⟨_, _, hrest⟩
  · exact h1
  · rw [h] at hc
    exact absurd hc (by intro hh; exact LineKind.noConfusion hh)
  · rcases hrest with ⟨_, hc⟩ | ⟨d0, v0, vs, _, ⟨_, hc⟩ | ⟨_, hc⟩⟩ <;>
      · rw [h] at hc
        exact absurd hc (by intro hh; exact LineKind.noConfusion hh)

theorem classify_blank_inv {l : String} (h : classify l = LineKind.blank) :
    startsW (trimS l) "#" = false ∧ trimS l = "" := by
  rcases classify_cases l with ⟨_, hc⟩ | ⟨h1, h2, _⟩ | ⟨_, _, hrest⟩
  · rw [h] at hc
    exact absurd hc (by intro hh; exact LineKind.noConfusion hh)
  · exact ⟨h1, h2⟩
  · rcases hrest with ⟨_, hc⟩ | ⟨d0, v0, vs, _, ⟨_, hc⟩ | ⟨_, hc⟩⟩ <;>
      · rw [h] at hc
        exact absurd hc (by intro hh; exact LineKind.noConfusion hh)

theorem classify_dir_inv {l d v : String} (h : classify l = LineKind.dir d v) :
    startsW (trimS l) "#" = false ∧ trimS l ≠ "" ∧
    ∃ d0 v0 vs, fields (trimS l) = d0 :: v0 :: vs ∧ lowerS d0 = d ∧
      joinSp (v0 :: vs) = v ∧ lowerS d0 ≠ "host" := by
  rcases classify_cases l with ⟨_, hc⟩ | ⟨_, _, hc⟩ | ⟨h1, h2, hrest⟩
  · rw [h] at hc
    exact absurd hc (by intro hh; exact LineKind.noConfusion hh)
  · rw [h] at hc
    exact absurd hc (by intro hh; exact LineKind.noConfusion hh)
  · rcases hrest with ⟨_, hc⟩ | ⟨d0, v0, vs, hf, ⟨_, hc⟩ | ⟨hnh, hc⟩⟩
    · rw [h] at hc
      exact absurd hc (by intro hh; exact LineKind.noConfusion hh)
    · rw [h] at hc
      exact absurd hc (by intro hh; exact LineKind.noConfusion hh)
    · rw [h] at hc
      have hinj := LineKind.dir.inj hc.symm
      exact ⟨h1, h2, d0, v0, vs, hf, hinj.1, hinj.2, hnh⟩

theorem classify_host_inv {l v : String} (h : classify l = LineKind.host v) :
    startsW (trimS l) "#" = false ∧ trimS l ≠ "" ∧
    ∃ d0 v0 vs, fields (trimS l) = d0 :: v0 :: vs ∧ lowerS d0 = "host" ∧
      joinSp (v0 :: vs) = v := by
  rcases classify_cases l with ⟨_, hc⟩ | ⟨_, _, hc⟩ | ⟨h1, h2, hrest⟩
  · rw [h] at hc
    exact absurd hc (by intro hh; exact LineKind.noConfusion hh)
  · rw [h] at hc
    exact absurd hc (by intro hh; exact LineKind.noConfusion hh)
  · rcases hrest with ⟨_, hc⟩ | ⟨d0, v0, vs, hf, ⟨hhost, hc⟩ | ⟨_, hc⟩⟩
    · rw [h] at hc
      exact absurd hc (by intro hh; exact LineKind.noConfusion hh)
    · rw [h] at hc
      exact ⟨h1, h2, d0, v0, vs, hf, hhost, (LineKind.host.inj hc.symm)⟩
    · rw [h] at hc
      exact absurd hc (by intro hh; exact LineKind.noConfusion hh)

theorem classify_short_inv {l : String} (h : classify l = LineKind.short) :
    startsW (trimS l) "#" = false ∧ trimS l ≠ "" ∧
    (fields (trimS l) = [] ∨ ∃ d0, fields (trimS l) = [d0]) := by
  rcases classify_cases l with ⟨_, hc⟩ | ⟨_, _, hc⟩ | ⟨h1, h2, hrest⟩
  · rw [h] at hc
    exact absurd hc (by intro hh; exact LineKind.noConfusion hh)
  · rw [h] at hc
    exact absurd hc (by intro hh; exact LineKind.noConfusion hh)
  · rcases hrest with ⟨hfs, _⟩ | ⟨d0, v0, vs, hf, ⟨_, hc⟩ | ⟨_, hc⟩⟩
    · exact ⟨h1, h2, hfs⟩
    · rw [h] at hc
      exact absurd hc (by intro hh; exact LineKind.noConfusion hh)
    · rw [h] at hc
      exact absurd hc (by intro hh; exact LineKind.noConfusion hh)


/-! ### Characterizing the raw-line replay of the writer -/

theorem replayLine_eq (e : HostEntry) (fl : WFlags) (l : String) :
    replayLine e fl l = (updFl fl l, outOf e l) := by
  obtain ⟨a, b, c⟩ := fl
  unfold updFl outOf isDirLine replayLine
  cases hc : classify l with
  | comment => simp [hc]
  | blank => simp [hc]
  | short => simp [hc]
  | host v => simp [hc]
  | dir d v =>
    simp only [hc]
    by_cases h1 : d = "hostname"
    · simp [h1]
    · by_cases h2 : d = "user"
      · simp [h1, h2]
      · by_cases h3 : d = "port"
        · simp [h1, h2, h3]
        · simp [h1, h2, h3]

theorem replayAll_aux (e : HostEntry) :
    ∀ (lines : List String) (fl : WFlags) (acc : List String),
      lines.foldl (replayStep e) (fl, acc) =
        (lines.foldl updFl fl, acc ++ (lines.map (outOf e)).join) := by
  intro lines
  induction lines with
  | nil =>
    intro fl acc
    simp
  | cons l ls ih =>
    intro fl acc
    rw [List.foldl_cons, List.foldl_cons]
    have hs : replayStep e (fl, acc) l = (updFl fl l, acc ++ outOf e l) := by
      unfold replayStep
      rw [replayLine_eq]
    rw [hs, ih]
    simp [List.append_assoc]

theorem replayAll_eq (e : HostEntry) (lines : List String) :
    replayAll e lines =
      (lines.foldl updFl ⟨false, false, false⟩, (lines.map (outOf e)).join) := by
  unfold replayAll
  rw [replayAll_aux]
  simp

theorem foldl_updFl (lines : List String) :
    ∀ fl : WFlags, lines.foldl updFl fl =
      ⟨fl.hn || lines.any (fun l => isDirLine l "hostname"),
       fl.us || lines.any (fun l => isDirLine l "user"),
       fl.pt || lines.any (fun l => isDirLine l "port")⟩ := by
  induction lines with
  | nil =>
    intro fl
    obtain ⟨a, b, c⟩ := fl
    simp
  | cons l ls ih =>
    intro fl
    rw [List.foldl_cons, ih]
    obtain ⟨a, b, c⟩ := fl
    simp [updFl, Bool.or_assoc]

theorem replayAll_flags (e : HostEntry) (lines : List String) :
    (replayAll e lines).1 =
      ⟨lines.any (fun l => isDirLine l "hostname"),
       lines.any (fun l => isDirLine l "user"),
       lines.any (fun l => isDirLine l "port")⟩ := by
  rw [replayAll_eq]
  show lines.foldl updFl ⟨false, false, false⟩ = _
  rw [foldl_updFl]
  simp

theorem replayAll_out (e : HostEntry) (lines : List String) :
    (replayAll e lines).2 = (lines.map (outOf e)).join := by
  rw [replayAll_eq]

theorem outOf_verbatim {e : HostEntry} {l : String}
    (h : verbatimLine e l = true) : outOf e l = [l] := by
  unfold verbatimLine at h
  unfold outOf replayLine
  cases hc : classify l with
  | comment => simp only [hc]
  | blank => simp only [hc]
  | short => simp only [hc]
  | host v =>
    rw [hc] at h
    replace h : (l == "Host " ++ e.Host) = true := h
    have hl : l = "Host " ++ e.Host := by simpa using h
    simp only [hc]
    rw [hl]
  | dir d v =>
    rw [hc] at h
    replace h : (if d = "hostname" then v == e.HostName
        else if d = "user" then e.User != "" && v == e.User
        else if d = "port" then e.Port != "" && v == e.Port
        else true) = true := h
    simp only [hc]
    by_cases h1 : d = "hostname"
    · rw [if_pos h1] at h
      rw [if_pos h1]
      have hv : v = e.HostName := by simpa using h
      show [if v = e.HostName then l
        else leadingWS l ++ (fields (trimS l)).headD "" ++ " " ++ e.HostName] = [l]
      rw [if_pos hv]
    · rw [if_neg h1] at h
      rw [if_neg h1]
      by_cases h2 : d = "user"
      · rw [if_pos h2] at h
        rw [if_pos h2]
        simp only [Bool.and_eq_true, bne_iff_ne, ne_eq, beq_iff_eq] at h
        obtain ⟨hne, hv⟩ := h
        show (if e.User = "" then ([] : List String)
          else [if v = e.User then l
            else leadingWS l ++ (fields (trimS l)).headD "" ++ " " ++ e.User]) = [l]
        rw [if_neg hne, if_pos hv]
      · rw [if_neg h2] at h
        rw [if_neg h2]
        by_cases h3 : d = "port"
        · rw [if_pos h3] at h
          rw [if_pos h3]
          simp only [Bool.and_eq_true, bne_iff_ne, ne_eq, beq_iff_eq] at h
          obtain ⟨hne, hv⟩ := h
          show (if e.Port = "" then ([] : List String)
            else [if v = e.Port then l
              else leadingWS l ++ (fields (trimS l)).headD "" ++ " " ++ e.Port]) = [l]
          rw [if_neg hne, if_pos hv]
        · rw [if_neg h3]

theorem outOf_port_changed {e : HostEntry} {l v : String}
    (hc : classify l = LineKind.dir "port" v)
    (hne : e.Port ≠ "") (hnv : v ≠ e.Port) :
    outOf e l = [leadingWS l ++ (fields (trimS l)).headD "" ++ " " ++ e.Port] := by
  unfold outOf replayLine
  simp only [hc]
  simp [hne, hnv]

theorem join_map_singleton (ls : List String) :
    (ls.map (fun l => [l])).join = ls := by
  induction ls with
  | nil => rfl
  | cons l t ih => simp [ih]

/-- When every raw line replays verbatim, every required directive with a
non-empty current value already occurs among the raw lines, and there is no
description to inject, `writeEntry` reproduces the raw lines exactly. -/
theorem writeEntry_verbatim (e : HostEntry)
    (hne : e.RawLines ≠ [])
    (hdesc : e.Description = "")
    (hverb : ∀ l ∈ e.RawLines, verbatimLine e l = true)
    (hhn : e.HostName ≠ "" → e.RawLines.any (fun l => isDirLine l "hostname") = true)
    (hus : e.User ≠ "" → e.RawLines.any (fun l => isDirLine l "user") = true)
    (hpt : e.Port ≠ "" → e.RawLines.any (fun l => isDirLine l "port") = true) :
    writeEntryLines e = e.RawLines := by
  unfold writeEntryLines
  rw [if_neg hne, if_pos hdesc]
  have hout : (replayAll e e.RawLines).2 = e.RawLines := by
    rw [replayAll_out]
    have hmap : e.RawLines.map (outOf e) = e.RawLines.map (fun l => [l]) :=
      List.map_congr_left (fun l hl => outOf_verbatim (hverb l hl))
    rw [hmap, join_map_singleton]
  have happ : ∀ (b : Bool) (s : String) (x : List String),
      (s ≠ "" → b = true) →
      (if b then ([] : List String) else if s = "" then [] else x) = [] := by
    intro b s x hbx
    cases hb : b
    · by_cases hs : s = ""
      · rw [if_neg (by simp), if_pos hs]
      · exact absurd (hbx hs) (by simp [hb])
    · rw [if_pos rfl]
  simp only [replayAll_flags, hout]
  rw [happ _ _ _ hhn, happ _ _ _ hus, happ _ _ _ hpt]
  simp


/-! ### Parsing a single block of well-behaved lines -/

theorem restOK_comment_keep {st : ParseState} {l : String}
    (hc : classify l = LineKind.comment) (hok : restOK l = true) :
    closeCond st l = false := by
  unfold restOK at hok
  rw [hc] at hok
  replace hok : (startsW l " " || startsW l "\t" ||
      (startsW (trimS l) "##" && !startsW (trimS l) "# Description:")) = true := hok
  simp only [Bool.or_eq_true, Bool.and_eq_true, Bool.not_eq_true'] at hok
  unfold closeCond
  rcases hok with (hsp | htab) | ⟨hdd1, hdd2⟩
  · simp [hsp]
  · simp [htab]
  · simp [hdd1, hdd2]

theorem parse_block_fold :
    ∀ (rest : List String) (st : ParseState) (e : HostEntry),
      st.inHostBlock = true → st.current = some e → st.commentBuffer = [] →
      (∀ l ∈ rest, restOK l = true) →
      ∃ e', rest.foldl processLine st =
          { entries := st.entries, standalone := st.standalone,
            current := some e', commentBuffer := [],
            currentHostLines := st.currentHostLines ++ rest,
            lineNum := st.lineNum + rest.length, inHostBlock := true } ∧
        e'.Host = e.Host ∧ e'.StartLine = e.StartLine ∧
        e'.Description = e.Description ∧
        e'.HostName = lastD rest "hostname" e.HostName ∧
        e'.User = lastD rest "user" e.User ∧
        e'.Port = lastD rest "port" e.Port ∧
        e'.IdentityFile = lastD rest "identityfile" e.IdentityFile := by
  intro rest
  induction rest with
  | nil =>
    intro st e hin he hbuf _
    refine ⟨e, ?_, rfl, rfl, rfl, rfl, rfl, rfl, rfl⟩
    obtain ⟨se, ss, sc, sb, sh, sn, si⟩ := st
    simp only at he hbuf hin
    subst he hbuf hin
    simp
  | cons l rest ih =>
    intro st e hin he hbuf hok
    have hokl : restOK l = true := hok l (by simp)
    have hokr : ∀ x ∈ rest, restOK x = true := fun x hx => hok x (by simp [hx])
    rw [List.foldl_cons]
    cases hc : classify l with
    | comment =>
      have hcl : closeCond st l = false := restOK_comment_keep hc hokl
      rw [processLine_comment st hc,
        commentStep_keep st l (st.lineNum + 1) e he hin hcl]
      have hnd : ∀ dn : String, isDirLine l dn = false := by
        intro dn
        unfold isDirLine
        rw [hc]
      obtain ⟨e', hfold, h1, h2, h3, h4, h5, h6, h7⟩ :=
        ih { st with
              currentHostLines := st.currentHostLines ++ [l],
              current := some { e with Comment := e.Comment ++ l ++ "\n" },
              lineNum := st.lineNum + 1 }
          { e with Comment := e.Comment ++ l ++ "\n" } hin rfl hbuf hokr
      refine ⟨e', ?_, h1, h2, h3, ?_, ?_, ?_, ?_⟩
      · rw [hfold]
        congr 1 <;> first
          | rfl
          | (simp [List.append_assoc]; done)
          | (simp only [List.length_cons]; omega)
      · rw [lastD_cons_nd (hnd "hostname")]
        exact h4
      · rw [lastD_cons_nd (hnd "user")]
        exact h5
      · rw [lastD_cons_nd (hnd "port")]
        exact h6
      · rw [lastD_cons_nd (hnd "identityfile")]
        exact h7
    | blank =>
      rw [processLine_blank st hc,
        blankStep_in st l (st.lineNum + 1) e he hin]
      have hnd : ∀ dn : String, isDirLine l dn = false := by
        intro dn
        unfold isDirLine
        rw [hc]
      obtain ⟨e', hfold, h1, h2, h3, h4, h5, h6, h7⟩ :=
        ih { st with
              currentHostLines := st.currentHostLines ++ [l],
              current := some { e with Comment := e.Comment ++ l ++ "\n" },
              lineNum := st.lineNum + 1 }
          { e with Comment := e.Comment ++ l ++ "\n" } hin rfl hbuf hokr
      refine ⟨e', ?_, h1, h2, h3, ?_, ?_, ?_, ?_⟩
      · rw [hfold]
        congr 1 <;> first
          | rfl
          | (simp [List.append_assoc]; done)
          | (simp only [List.length_cons]; omega)
      · rw [lastD_cons_nd (hnd "hostname")]
        exact h4
      · rw [lastD_cons_nd (hnd "user")]
        exact h5
      · rw [lastD_cons_nd (hnd "port")]
        exact h6
      · rw [lastD_cons_nd (hnd "identityfile")]
        exact h7
    | short =>
      rw [processLine_short st hc, shortStep_in st l (st.lineNum + 1) hin]
      have hnd : ∀ dn : String, isDirLine l dn = false := by
        intro dn
        unfold isDirLine
        rw [hc]
      obtain ⟨e', hfold, h1, h2, h3, h4, h5, h6, h7⟩ :=
        ih { st with
              currentHostLines := st.currentHostLines ++ [l],
              lineNum := st.lineNum + 1 }
          e hin he hbuf hokr
      refine ⟨e', ?_, h1, h2, h3, ?_, ?_, ?_, ?_⟩
      · rw [hfold]
        congr 1 <;> first
          | rfl
          | (simp [List.append_assoc]; done)
          | (simp only [List.length_cons]; omega)
      · rw [lastD_cons_nd (hnd "hostname")]
        exact h4
      · rw [lastD_cons_nd (hnd "user")]
        exact h5
      · rw [lastD_cons_nd (hnd "port")]
        exact h6
      · rw [lastD_cons_nd (hnd "identityfile")]
        exact h7
    | host v =>
      exfalso
      unfold restOK at hokl
      rw [hc] at hokl
      exact absurd hokl (by simp)
    | dir d v =>
      rw [processLine_dir st hc,
        otherDirStep_in st l d v (st.lineNum + 1) e he hin]
      obtain ⟨e', hfold, h1, h2, h3, h4, h5, h6, h7⟩ :=
        ih { st with
              currentHostLines := st.currentHostLines ++ [l],
              current := some (setField e d v),
              lineNum := st.lineNum + 1 }
          (setField e d v) hin rfl hbuf hokr
      have hdline : ∀ dn : String, d ≠ dn → isDirLine l dn = false := by
        intro dn hdn
        unfold isDirLine
        rw [hc]
        simp [hdn]
      refine ⟨e', ?_, ?_, ?_, ?_, ?_, ?_, ?_, ?_⟩
      · rw [hfold]
        congr 1 <;> first
          | rfl
          | (simp [List.append_assoc]; done)
          | (simp only [List.length_cons]; omega)
      · rw [h1, setField_host]
      · rw [h2, setField_startLine]
      · rw [h3, setField_description]
      · by_cases hd : d = "hostname"
        · rw [lastD_cons_d (hd ▸ hc), h4, setField_hostName, if_pos hd]
        · rw [lastD_cons_nd (hdline "hostname" hd), h4, setField_hostName,
            if_neg hd]
      · by_cases hd : d = "user"
        · rw [lastD_cons_d (hd ▸ hc), h5, setField_user, if_pos hd]
        · rw [lastD_cons_nd (hdline "user" hd), h5, setField_user, if_neg hd]
      · by_cases hd : d = "port"
        · rw [lastD_cons_d (hd ▸ hc), h6, setField_port, if_pos hd]
        · rw [lastD_cons_nd (hdline "port" hd), h6, setField_port, if_neg hd]
      · by_cases hd : d = "identityfile"
        · rw [lastD_cons_d (hd ▸ hc), h7, setField_identityFile, if_pos hd]
        · rw [lastD_cons_nd (hdline "identityfile" hd), h7,
            setField_identityFile, if_neg hd]

theorem newHostEntry_init (a : String) :
    newHostEntry initState a 1 =
      { Host := a, HostName := "", User := "", Port := "", IdentityFile := "",
        Description := "", Comment := "", RawLines := [],
        StartLine := 1, EndLine := 0 } := rfl

/-- Parsing a file that is one `Host` line followed by block-friendly lines
yields exactly one entry (when valid) carrying the whole file as raw lines
and the last value of each recognized directive. -/
theorem parse_single_block (a : String) (rest : List String)
    (hcls : classify ("Host " ++ a) = LineKind.host a)
    (hok : ∀ l ∈ rest, restOK l = true)
    (hne : a ≠ "") (hvd : a = "*" ∨ lastD rest "hostname" "" ≠ "") :
    ∃ C, parseLines (("Host " ++ a) :: rest) =
      ([{ Host := a, HostName := lastD rest "hostname" "",
          User := lastD rest "user" "", Port := lastD rest "port" "",
          IdentityFile := lastD rest "identityfile" "", Description := "",
          Comment := C, RawLines := ("Host " ++ a) :: rest,
          StartLine := 1, EndLine := 1 + rest.length }], []) := by
  have h0 : processLine initState ("Host " ++ a) =
      { entries := [], standalone := [], current := some (newHostEntry initState a 1),
        commentBuffer := [], currentHostLines := ["Host " ++ a],
        lineNum := 1, inHostBlock := true } := by
    rw [processLine_host initState hcls,
      hostStep_fresh initState ("Host " ++ a) a (initState.lineNum + 1) (Or.inl rfl)]
    rfl
  obtain ⟨e', hfold, h1, h2, h3, h4, h5, h6, h7⟩ :=
    parse_block_fold rest
      { entries := [], standalone := [], current := some (newHostEntry initState a 1),
        commentBuffer := [], currentHostLines := ["Host " ++ a],
        lineNum := 1, inHostBlock := true }
      (newHostEntry initState a 1) rfl rfl rfl hok
  simp only [newHostEntry_init] at h1 h2 h3 h4 h5 h6 h7
  have hfull : (("Host " ++ a) :: rest).foldl processLine initState =
      { entries := [], standalone := [], current := some e',
        commentBuffer := [], currentHostLines := ["Host " ++ a] ++ rest,
        lineNum := 1 + rest.length, inHostBlock := true } := by
    rw [List.foldl_cons, h0, hfold]
  have hvv : ({ Host := a, HostName := lastD rest "hostname" "",
                User := lastD rest "user" "", Port := lastD rest "port" "",
                IdentityFile := lastD rest "identityfile" "", Description := "",
                Comment := e'.Comment, RawLines := ["Host " ++ a] ++ rest,
                StartLine := 1, EndLine := 1 + rest.length } : HostEntry).IsValid
      = true := by
    unfold HostEntry.IsValid
    rw [if_neg hne]
    rcases hvd with h | h
    · rw [if_pos h]
    · by_cases hstar : a = "*"
      · rw [if_pos hstar]
      · rw [if_neg hstar]
        simpa using h
  refine ⟨e'.Comment, ?_⟩
  unfold parseLines
  rw [hfull]
  obtain ⟨eh, ehn, eu, ep, ei, ed, ec, er, es, eE⟩ := e'
  simp only at h1 h2 h3 h4 h5 h6 h7
  simp only at hvv
  simp only [List.singleton_append] at hvv
  simp [h1, h2, h3, h4, h5, h6, h7, hvv]

theorem mem_dirValues {l : String} {rest : List String} {d v : String}
    (hl : l ∈ rest) (hc : classify l = LineKind.dir d v) :
    v ∈ dirValues rest d := by
  unfold dirValues
  apply List.mem_filterMap.2
  refine ⟨l, hl, ?_⟩
  rw [hc]
  show (if d = d then some v else none) = some v
  rw [if_pos rfl]

theorem dirValues_ne_nil_any {rest : List String} {d : String}
    (h : dirValues rest d ≠ []) :
    rest.any (fun l => isDirLine l d) = true := by
  rcases hexists : dirValues rest d with _ | ⟨v, vs⟩
  · exact absurd hexists h
  · have hv : v ∈ dirValues rest d := by
      rw [hexists]
      simp
    obtain ⟨l, hl, hf⟩ := List.mem_filterMap.1 hv
    apply List.any_eq_true.2
    refine ⟨l, hl, ?_⟩
    unfold isDirLine
    cases hcl : classify l with
    | comment =>
      rw [hcl] at hf
      exact absurd hf (by simp)
    | blank =>
      rw [hcl] at hf
      exact absurd hf (by simp)
    | short =>
      rw [hcl] at hf
      exact absurd hf (by simp)
    | host v' =>
      rw [hcl] at hf
      exact absurd hf (by simp)
    | dir d' v' =>
      rw [hcl] at hf
      replace hf : (if d' = d then some v' else none) = some v := hf
      by_cases hd : d' = d
      · simp [hd]
      · rw [if_neg hd] at hf
        exact absurd hf (by simp)

theorem dirValues_val_ne_empty {rest : List String} {d : String}
    (hd : d = "hostname" ∨ d = "user" ∨ d = "port")
    (hok : ∀ l ∈ rest, restOK l = true) :
    ∀ v ∈ dirValues rest d, v ≠ "" := by
  intro v hv
  obtain ⟨l, hl, hf⟩ := List.mem_filterMap.1 hv
  have hok' := hok l hl
  cases hcl : classify l with
  | comment =>
    rw [hcl] at hf
    exact absurd hf (by simp)
  | blank =>
    rw [hcl] at hf
    exact absurd hf (by simp)
  | short =>
    rw [hcl] at hf
    exact absurd hf (by simp)
  | host v' =>
    rw [hcl] at hf
    exact absurd hf (by simp)
  | dir d' v' =>
    rw [hcl] at hf
    replace hf : (if d' = d then some v' else none) = some v := hf
    by_cases hdd : d' = d
    · rw [if_pos hdd] at hf
      have hvv : v' = v := by simpa using hf
      unfold restOK at hok'
      rw [hcl] at hok'
      replace hok' :
          (!(d' = "hostname" || d' = "user" || d' = "port") || v' != "") = true := hok'
      have hrec : (d' = "hostname" || d' = "user" || d' = "port") = true := by
        rcases hd with h | h | h <;>
          · rw [hdd, h]
            simp
      rw [hrec] at hok'
      simp only [Bool.not_true, Bool.false_or, bne_iff_ne, ne_eq] at hok'
      rw [← hvv]
      exact hok'
    · rw [if_neg hdd] at hf
      exact absurd hf (by simp)

theorem getLastD_cons_mem (dflt : String) :
    ∀ (xs : List String) (x : String), (x :: xs).getLastD dflt ∈ x :: xs := by
  intro xs
  induction xs with
  | nil =>
    intro x
    simp
  | cons y ys ih =>
    intro x
    rw [List.getLastD_cons]
    exact List.mem_cons_of_mem x (ih y)

theorem lastD_mem (rest : List String) (d dflt : String)
    (h : dirValues rest d ≠ []) : lastD rest d dflt ∈ dirValues rest d := by
  unfold lastD
  rcases hdv : dirValues rest d with _ | ⟨x, xs⟩
  · exact absurd hdv h
  · exact getLastD_cons_mem dflt xs x

theorem lastD_of_single {rest : List String} {d v : String}
    (hmem : v ∈ dirValues rest d) (hlen : (dirValues rest d).length ≤ 1)
    (dflt : String) : lastD rest d dflt = v := by
  unfold lastD
  rcases hdv : dirValues rest d with _ | ⟨x, xs⟩
  · rw [hdv] at hmem
    simp at hmem
  · rw [hdv] at hmem hlen
    cases xs with
    | nil =>
      have : v = x := by simpa using hmem
      rw [this, List.getLastD_cons]
      rfl
    | cons y ys =>
      exact absurd hlen (by simp)

/-- Round trip on the `RTClass` of files, at the level of lines. -/
theorem roundtrip_single_block (f : List String) (h : RTClass f) :
    writeConfigLines (parseLines f).1 (parseLines f).2 = f := by
  obtain ⟨a, rest, hf, hcls, hne, hok, hlh, hlu, hlp, hvd0⟩ := h
  have hvne : ∀ v ∈ dirValues rest "hostname", v ≠ "" :=
    dirValues_val_ne_empty (Or.inl rfl) hok
  have hune : ∀ v ∈ dirValues rest "user", v ≠ "" :=
    dirValues_val_ne_empty (Or.inr (Or.inl rfl)) hok
  have hpne : ∀ v ∈ dirValues rest "port", v ≠ "" :=
    dirValues_val_ne_empty (Or.inr (Or.inr rfl)) hok
  have hvd : a = "*" ∨ lastD rest "hostname" "" ≠ "" := by
    rcases hvd0 with h1 | h1
    · exact Or.inl h1
    · exact Or.inr (hvne _ (lastD_mem rest "hostname" "" h1))
  subst hf
  obtain ⟨C, hparse⟩ := parse_single_block a rest hcls hok hne hvd
  rw [hparse]
  set E : HostEntry :=
    { Host := a, HostName := lastD rest "hostname" "",
      User := lastD rest "user" "", Port := lastD rest "port" "",
      IdentityFile := lastD rest "identityfile" "", Description := "",
      Comment := C, RawLines := ("Host " ++ a) :: rest,
      StartLine := 1, EndLine := 1 + rest.length } with hE
  have hwc : writeConfigLines [E] [] = writeEntryLines E := by
    unfold writeConfigLines
    simp [List.intercalate]
  rw [hwc]
  have hverb : ∀ l ∈ E.RawLines, verbatimLine E l = true := by
    intro l hl
    have hl' : l = "Host " ++ a ∨ l ∈ rest := by simpa using hl
    rcases hl' with hl0 | hlr
    · subst hl0
      unfold verbatimLine
      rw [hcls]
      show (("Host " ++ a) == "Host " ++ a) = true
      simp
    · have hokl := hok l hlr
      cases hcl : classify l with
      | comment => simp [verbatimLine, hcl]
      | blank => simp [verbatimLine, hcl]
      | short => simp [verbatimLine, hcl]
      | host v =>
        exfalso
        unfold restOK at hokl
        rw [hcl] at hokl
        replace hokl : (false : Bool) = true := hokl
        exact absurd hokl (by simp)
      | dir d v =>
        unfold verbatimLine
        rw [hcl]
        show (if d = "hostname" then (v == E.HostName)
          else if d = "user" then (E.User != "" && (v == E.User))
          else if d = "port" then (E.Port != "" && (v == E.Port))
          else true) = true
        by_cases h1 : d = "hostname"
        · rw [if_pos h1]
          have hmem := mem_dirValues hlr (h1 ▸ hcl)
          have hlast : lastD rest "hostname" "" = v := lastD_of_single hmem hlh ""
          show (v == lastD rest "hostname" "") = true
          rw [hlast]
          simp
        · rw [if_neg h1]
          by_cases h2 : d = "user"
          · rw [if_pos h2]
            have hmem := mem_dirValues hlr (h2 ▸ hcl)
            have hlast : lastD rest "user" "" = v := lastD_of_single hmem hlu ""
            have hvz : v ≠ "" := hune v hmem
            show ((lastD rest "user" "") != "" && (v == lastD rest "user" "")) = true
            rw [hlast]
            simp [hvz]
          · rw [if_neg h2]
            by_cases h3 : d = "port"
            · rw [if_pos h3]
              have hmem := mem_dirValues hlr (h3 ▸ hcl)
              have hlast : lastD rest "port" "" = v := lastD_of_single hmem hlp ""
              have hvz : v ≠ "" := hpne v hmem
              show ((lastD rest "port" "") != "" && (v == lastD rest "port" "")) = true
              rw [hlast]
              simp [hvz]
            · rw [if_neg h3]
  have hnotdir0 : ∀ dn : String, isDirLine ("Host " ++ a) dn = false := by
    intro dn
    unfold isDirLine
    rw [hcls]
  have hhn : E.HostName ≠ "" → E.RawLines.any (fun l => isDirLine l "hostname") = true := by
    intro hnz
    have hdv : dirValues rest "hostname" ≠ [] := by
      intro hnil
      apply hnz
      show lastD rest "hostname" "" = ""
      unfold lastD
      rw [hnil]
      rfl
    show (("Host " ++ a) :: rest).any (fun l => isDirLine l "hostname") = true
    rw [List.any_cons, hnotdir0, dirValues_ne_nil_any hdv]
    rfl
  have hus : E.User ≠ "" → E.RawLines.any (fun l => isDirLine l "user") = true := by
    intro hnz
    have hdv : dirValues rest "user" ≠ [] := by
      intro hnil
      apply hnz
      show lastD rest "user" "" = ""
      unfold lastD
      rw [hnil]
      rfl
    show (("Host " ++ a) :: rest).any (fun l => isDirLine l "user") = true
    rw [List.any_cons, hnotdir0, dirValues_ne_nil_any hdv]
    rfl
  have hpt : E.Port ≠ "" → E.RawLines.any (fun l => isDirLine l "port") = true := by
    intro hnz
    have hdv : dirValues rest "port" ≠ [] := by
      intro hnil
      apply hnz
      show lastD rest "port" "" = ""
      unfold lastD
      rw [hnil]
      rfl
    show (("Host " ++ a) :: rest).any (fun l => isDirLine l "port") = true
    rw [List.any_cons, hnotdir0, dirValues_ne_nil_any hdv]
    rfl
  have hraw : E.RawLines ≠ [] := by
    show ("Host " ++ a) :: rest ≠ []
    simp
  exact writeEntry_verbatim E hraw rfl hverb hhn hus hpt

theorem join_map_single (g : String → String) (ls : List String) :
    (ls.map (fun l => [g l])).join = ls.map g := by
  induction ls with
  | nil => rfl
  | cons l t ih => simp [ih]

/-- With no description to inject and every required non-empty field already
present among the raw lines, `writeEntry` emits exactly the per-line replay
outputs. -/
theorem writeEntry_out (e : HostEntry)
    (hne : e.RawLines ≠ [])
    (hdesc : e.Description = "")
    (hhn : e.HostName ≠ "" → e.RawLines.any (fun l => isDirLine l "hostname") = true)
    (hus : e.User ≠ "" → e.RawLines.any (fun l => isDirLine l "user") = true)
    (hpt : e.Port ≠ "" → e.RawLines.any (fun l => isDirLine l "port") = true) :
    writeEntryLines e = (e.RawLines.map (outOf e)).join := by
  unfold writeEntryLines
  rw [if_neg hne, if_pos hdesc]
  have happ : ∀ (b : Bool) (s : String) (x : List String),
      (s ≠ "" → b = true) →
      (if b then ([] : List String) else if s = "" then [] else x) = [] := by
    intro b s x hbx
    cases hb : b
    · by_cases hs : s = ""
      · rw [if_neg (by simp), if_pos hs]
      · exact absurd (hbx hs) (by simp [hb])
    · rw [if_pos rfl]
  simp only [replayAll_flags, replayAll_out]
  rw [happ _ _ _ hhn, happ _ _ _ hus, happ _ _ _ hpt]
  simp

/-- C5 (corrected): on a canonical single-block file with exactly one `Port`
line, rewriting the parsed entry after changing only the Port field emits the
port line with its original indentation and directive spelling carrying the
new value, and every other line of the block body byte-for-byte unchanged;
the `Host` line is re-emitted canonically, so the original claim (every
non-port line untouched) holds only when the `Host` line is already in
canonical form, as it is here. -/
theorem claim_C5_port_update_amended (a p' : String) (rest : List String)
    (hcls : classify ("Host " ++ a) = LineKind.host a)
    (hne : a ≠ "")
    (hok : ∀ l ∈ rest, restOK l = true)
    (hlh : (dirValues rest "hostname").length ≤ 1)
    (hlu : (dirValues rest "user").length ≤ 1)
    (hlp : (dirValues rest "port").length ≤ 1)
    (hvd0 : a = "*" ∨ dirValues rest "hostname" ≠ [])
    (hport : dirValues rest "port" ≠ [])
    (hpz : p' ≠ "") (hpch : p' ≠ lastD rest "port" "") :
    ∀ e ∈ (parseLines (("Host " ++ a) :: rest)).1,
      writeEntryLines { e with Port := p' } =
        ("Host " ++ a) :: rest.map (fun l =>
          if isDirLine l "port" then
            leadingWS l ++ (fields (trimS l)).headD "" ++ " " ++ p'
          else l) := by
  have hvne : ∀ v ∈ dirValues rest "hostname", v ≠ "" :=
    dirValues_val_ne_empty (Or.inl rfl) hok
  have hune : ∀ v ∈ dirValues rest "user", v ≠ "" :=
    dirValues_val_ne_empty (Or.inr (Or.inl rfl)) hok
  have hvd : a = "*" ∨ lastD rest "hostname" "" ≠ "" := by
    rcases hvd0 with h1 | h1
    · exact Or.inl h1
    · exact Or.inr (hvne _ (lastD_mem rest "hostname" "" h1))
  obtain ⟨C, hparse⟩ := parse_single_block a rest hcls hok hne hvd
  intro e he
  rw [hparse] at he
  have he' : e =
      { Host := a, HostName := lastD rest "hostname" "",
        User := lastD rest "user" "", Port := lastD rest "port" "",
        IdentityFile := lastD rest "identityfile" "", Description := "",
        Comment := C, RawLines := ("Host " ++ a) :: rest,
        StartLine := 1, EndLine := 1 + rest.length } := by simpa using he
  subst he'
  set E' : HostEntry :=
    { Host := a, HostName := lastD rest "hostname" "",
      User := lastD rest "user" "", Port := p',
      IdentityFile := lastD rest "identityfile" "", Description := "",
      Comment := C, RawLines := ("Host " ++ a) :: rest,
      StartLine := 1, EndLine := 1 + rest.length } with hE
  have hnotdir0 : ∀ dn : String, isDirLine ("Host " ++ a) dn = false := by
    intro dn
    unfold isDirLine
    rw [hcls]
  have hhn : E'.HostName ≠ "" → E'.RawLines.any (fun l => isDirLine l "hostname") = true := by
    intro hnz
    have hdv : dirValues rest "hostname" ≠ [] := by
      intro hnil
      apply hnz
      show lastD rest "hostname" "" = ""
      unfold lastD
      rw [hnil]
      rfl
    show (("Host " ++ a) :: rest).any (fun l => isDirLine l "hostname") = true
    rw [List.any_cons, hnotdir0, dirValues_ne_nil_any hdv]
    rfl
  have hus : E'.User ≠ "" → E'.RawLines.any (fun l => isDirLine l "user") = true := by
    intro hnz
    have hdv : dirValues rest "user" ≠ [] := by
      intro hnil
      apply hnz
      show lastD rest "user" "" = ""
      unfold lastD
      rw [hnil]
      rfl
    show (("Host " ++ a) :: rest).any (fun l => isDirLine l "user") = true
    rw [List.any_cons, hnotdir0, dirValues_ne_nil_any hdv]
    rfl
  have hpt : E'.Port ≠ "" → E'.RawLines.any (fun l => isDirLine l "port") = true := by
    intro _
    show (("Host " ++ a) :: rest).any (fun l => isDirLine l "port") = true
    rw [List.any_cons, hnotdir0, dirValues_ne_nil_any hport]
    rfl
  have hraw : E'.RawLines ≠ [] := by
    show ("Host " ++ a) :: rest ≠ []
    simp
  have hwout := writeEntry_out E' hraw rfl hhn hus hpt
  rw [hwout]
  have hmap : E'.RawLines.map (outOf E') =
      (("Host " ++ a) :: rest).map (fun l => [if isDirLine l "port" then
        leadingWS l ++ (fields (trimS l)).headD "" ++ " " ++ p' else l]) := by
    apply List.map_congr_left
    intro l hl
    rcases (by simpa using hl : l = "Host " ++ a ∨ l ∈ rest) with hl0 | hlr
    · subst hl0
      rw [hnotdir0 "port"]
      simp only [Bool.false_eq_true, if_false]
      apply outOf_verbatim
      unfold verbatimLine
      rw [hcls]
      show (("Host " ++ a) == "Host " ++ a) = true
      simp
    · have hokl := hok l hlr
      cases hcl : classify l with
      | comment =>
        have hnd : isDirLine l "port" = false := by
          unfold isDirLine
          rw [hcl]
        rw [hnd]
        simp only [Bool.false_eq_true, if_false]
        exact outOf_verbatim (by simp [verbatimLine, hcl])
      | blank =>
        have hnd : isDirLine l "port" = false := by
          unfold isDirLine
          rw [hcl]
        rw [hnd]
        simp only [Bool.false_eq_true, if_false]
        exact outOf_verbatim (by simp [verbatimLine, hcl])
      | short =>
        have hnd : isDirLine l "port" = false := by
          unfold isDirLine
          rw [hcl]
        rw [hnd]
        simp only [Bool.false_eq_true, if_false]
        exact outOf_verbatim (by simp [verbatimLine, hcl])
      | host v =>
        exfalso
        unfold restOK at hokl
        rw [hcl] at hokl
        replace hokl : (false : Bool) = true := hokl
        exact absurd hokl (by simp)
      | dir d v =>
        by_cases h3 : d = "port"
        · subst h3
          have hmem := mem_dirValues hlr hcl
          have hlast : lastD rest "port" "" = v := lastD_of_single hmem hlp ""
          have hdl : isDirLine l "port" = true := by
            unfold isDirLine
            rw [hcl]
            simp
          rw [hdl, if_pos rfl]
          have hvp : v ≠ E'.Port := by
            show v ≠ p'
            intro hh
            exact hpch (by rw [← hh, hlast])
          have := outOf_port_changed hcl (show E'.Port ≠ "" from hpz) hvp
          rw [this]
        · have hnd : isDirLine l "port" = false := by
            unfold isDirLine
            rw [hcl]
            simp [h3]
          rw [hnd]
          simp only [Bool.false_eq_true, if_false]
          apply outOf_verbatim
          unfold verbatimLine
          rw [hcl]
          show (if d = "hostname" then (v == E'.HostName)
            else if d = "user" then (E'.User != "" && (v == E'.User))
            else if d = "port" then (E'.Port != "" && (v == E'.Port))
            else true) = true
          by_cases h1 : d = "hostname"
          · rw [if_pos h1]
            have hmem := mem_dirValues hlr (h1 ▸ hcl)
            have hlast : lastD rest "hostname" "" = v := lastD_of_single hmem hlh ""
            show (v == lastD rest "hostname" "") = true
            rw [hlast]
            simp
          · rw [if_neg h1]
            by_cases h2 : d = "user"
            · rw [if_pos h2]
              have hmem := mem_dirValues hlr (h2 ▸ hcl)
              have hlast : lastD rest "user" "" = v := lastD_of_single hmem hlu ""
              have hvz : v ≠ "" := hune v hmem
              show ((lastD rest "user" "") != "" && (v == lastD rest "user" "")) = true
              rw [hlast]
              simp [hvz]
            · rw [if_neg h2, if_neg h3]
  rw [hmap, List.map_cons]
  rw [hnotdir0 "port"]
  simp only [Bool.false_eq_true, if_false]
  exact congrArg (List.cons ("Host " ++ a)) (join_map_single _ _)


/-! ### Helper lemmas for the update and delete list operations -/

theorem replaceFirst_skip (pre l : List HostEntry) (h : String) (ne : HostEntry)
    (hpre : ∀ e ∈ pre, e.Host ≠ h) :
    replaceFirst (pre ++ l) h ne = pre ++ replaceFirst l h ne := by
  induction pre with
  | nil => rfl
  | cons x xs ih =>
    have hx : x.Host ≠ h := hpre x (by simp)
    have ih' := ih (fun e he => hpre e (by simp [he]))
    show replaceFirst (x :: (xs ++ l)) h ne = (x :: xs) ++ replaceFirst l h ne
    simp only [replaceFirst]
    rw [if_neg hx, ih']
    simp

theorem deleteFiltered_skip (pre l : List HostEntry) (h : String)
    (hpre : ∀ e ∈ pre, e.Host ≠ h) :
    deleteFiltered (pre ++ l) h = pre ++ deleteFiltered l h := by
  induction pre with
  | nil => rfl
  | cons x xs ih =>
    have hx : x.Host ≠ h := hpre x (by simp)
    have ih' := ih (fun e he => hpre e (by simp [he]))
    show deleteFiltered (x :: (xs ++ l)) h = (x :: xs) ++ deleteFiltered l h
    simp only [deleteFiltered]
    rw [if_pos hx, ih']
    simp

theorem replaceFirst_no_match (es : List HostEntry) (h : String) (ne : HostEntry)
    (hno : ∀ e ∈ es, e.Host ≠ h) : replaceFirst es h ne = es := by
  have h0 := replaceFirst_skip es [] h ne hno
  simpa [replaceFirst] using h0

/-! ### Helper lemmas for comment-line handling and fresh writes -/

theorem closeCond_false_of_keep (st : ParseState) (l : String)
    (hkeep : startsW l " " = true ∨ startsW l "\x09" = true ∨
      (startsW (trimS l) "##" = true ∧ startsW (trimS l) "# Description:" = false)) :
    closeCond st l = false := by
  unfold closeCond
  rcases hkeep with h | h | ⟨h1, h2⟩
  · simp [h]
  · simp [h]
  · simp [h1, h2]

theorem isDirLine_desc_comment (s dn : String) :
    isDirLine ("# Description: " ++ s) dn = false := by
  have hdata : ("# Description: " ++ s).data =
      '#' :: (" Description: ".data ++ s.data) := by
    rw [data_append]
    rfl
  unfold isDirLine
  rw [classify_of_hash _ _ hdata]

theorem isDirLine_keyword (pre w : List Char) (s dn : String)
    (hpre : ∀ c ∈ pre, goIsSpace c = true)
    (hw : w ≠ []) (hwa : ∀ c ∈ w, goIsSpace c = false)
    (hwh : w.head? ≠ some '#')
    (hdn : lowerS (String.mk w) ≠ dn) :
    isDirLine (String.mk (pre ++ w ++ (' ' :: s.data))) dn = false := by
  unfold isDirLine
  rw [classify_shape pre w (' ' :: s.data) hpre hw hwa hwh (Or.inr ⟨s.data, rfl⟩)]
  split
  · rename_i d' v heq
    rcases hts : tailFields (rstrip (' ' :: s.data)) with _ | ⟨v0, vs0⟩
    · rw [hts] at heq
      simp at heq
    · rw [hts] at heq
      by_cases hh : lowerS (String.mk w) = "host"
      · simp [hh] at heq
      · simp [hh] at heq
        obtain ⟨h1, h2⟩ := heq
        rw [← h1]
        simp [hdn]
  · rfl

/-! ### The claims -/

/-- C1 (corrected): the unconditional round trip fails (see the
counterexample: the writer inserts its own blank separator between entries),
but on single-block files in canonical form (`RTClass`) parsing followed by
writing reproduces the file byte-for-byte, preserving indentation, directive
casing, comments and blank lines. -/
theorem claim_C1_roundtrip_amended (f : List String) (h : RTClass f) :
    render (writeConfigLines (parseLines f).1 (parseLines f).2) = render f := by
  rw [roundtrip_single_block f h]

/-- C1 counterexample: a two-block file with a separating blank line (all
blocks valid) does not round trip: the blank is swallowed into the first
block's raw lines and the writer emits an extra separator. -/
theorem claim_C1_counterexample :
    render (writeConfigLines
        (parseLines ["Host a", "    HostName x", "", "Host b", "    HostName y"]).1
        (parseLines ["Host a", "    HostName x", "", "Host b", "    HostName y"]).2) ≠
      render ["Host a", "    HostName x", "", "Host b", "    HostName y"] := by
  decide

/-- C1 witness: a concrete canonical single-block file round trips. -/
theorem claim_C1_witness :
    render (writeConfigLines
        (parseLines ["Host db", "    HostName 10.0.0.5", "    User admin"]).1
        (parseLines ["Host db", "    HostName 10.0.0.5", "    User admin"]).2) =
      render ["Host db", "    HostName 10.0.0.5", "    User admin"] :=
  claim_C1_roundtrip_amended _
    ⟨"db", ["    HostName 10.0.0.5", "    User admin"], by decide, by decide,
      by decide, by decide, by decide, by decide, by decide, by decide⟩

/-- C2 (confirmed): every returned entry with alias other than `*` has a
non-empty HostName (so a non-`*` block without a HostName directive is
dropped), and the number of returned `*` entries equals the number of
`Host *` lines (so every `Host *` block, HostName or not, is kept). -/
theorem claim_C2_required_validity (ls : List String) :
    (∀ e ∈ (parseLines ls).1, e.Host ≠ "*" → e.HostName ≠ "") ∧
    starCount (parseLines ls).1 = starLines ls := by
  obtain ⟨hop, hvalid, hstar⟩ := parse_inv2 ls
  obtain ⟨hall, hcnt⟩ := parseLines_final ls hvalid
  refine ⟨?_, by rw [hcnt, hstar]⟩
  intro e he hne
  exact isValid_decode (hall e he) hne

/-- C2 witness: the parsed entry of a concrete valid non-`*` block has a
non-empty HostName, and the `*` counts agree on that file. -/
theorem claim_C2_witness :
    ({ Host := "a", HostName := "x", User := "", Port := "", IdentityFile := "",
       Description := "", Comment := "", RawLines := ["Host a", "    HostName x"],
       StartLine := 1, EndLine := 2 } : HostEntry).HostName ≠ "" ∧
    starCount (parseLines ["Host a", "    HostName x"]).1 =
      starLines ["Host a", "    HostName x"] :=
  ⟨(claim_C2_required_validity ["Host a", "    HostName x"]).1 _ (by decide) (by decide),
   (claim_C2_required_validity ["Host a", "    HostName x"]).2⟩

/-- C3 (corrected): with duplicate aliases, UpdateEntry replaces exactly the
first matching entry and leaves every later duplicate in place, but
DeleteEntry is not first-match: it removes the first match and keeps
filtering the remainder, so later duplicates are deleted as well. -/
theorem claim_C3_duplicate_semantics_amended (pre post : List HostEntry)
    (h : String) (ne e1 : HostEntry)
    (hpre : ∀ e ∈ pre, e.Host ≠ h) (he1 : e1.Host = h) :
    replaceFirst (pre ++ e1 :: post) h ne = pre ++ ne :: post ∧
    deleteFiltered (pre ++ e1 :: post) h = pre ++ deleteFiltered post h := by
  constructor
  · rw [replaceFirst_skip pre (e1 :: post) h ne hpre]
    show pre ++ replaceFirst (e1 :: post) h ne = pre ++ ne :: post
    unfold replaceFirst
    rw [if_pos he1]
  · rw [deleteFiltered_skip pre (e1 :: post) h hpre]
    have hd : deleteFiltered (e1 :: post) h = deleteFiltered post h := by
      simp only [deleteFiltered]
      rw [if_neg (not_not_intro he1)]
    rw [hd]

/-- C3 counterexample: deleting alias `a` from a file with two `Host a`
blocks removes both blocks (the file becomes empty), not just the first. -/
theorem claim_C3_counterexample :
    deleteEntryLines ["Host a", "    HostName x", "Host a", "    HostName y"] "a" =
      [] := by
  decide

/-- C3 witness: the amended duplicate semantics at a concrete entry list. -/
theorem claim_C3_witness :
    replaceFirst
        ([{ Host := "a", HostName := "1", User := "", Port := "", IdentityFile := "",
            Description := "", Comment := "", RawLines := [], StartLine := 0,
            EndLine := 0 }] ++
          { Host := "x", HostName := "2", User := "", Port := "", IdentityFile := "",
            Description := "", Comment := "", RawLines := [], StartLine := 0,
            EndLine := 0 } ::
          [{ Host := "x", HostName := "3", User := "", Port := "", IdentityFile := "",
             Description := "", Comment := "", RawLines := [], StartLine := 0,
             EndLine := 0 }]) "x"
        { Host := "n", HostName := "9", User := "", Port := "", IdentityFile := "",
          Description := "", Comment := "", RawLines := [], StartLine := 0,
          EndLine := 0 } =
      [{ Host := "a", HostName := "1", User := "", Port := "", IdentityFile := "",
         Description := "", Comment := "", RawLines := [], StartLine := 0,
         EndLine := 0 }] ++
        { Host := "n", HostName := "9", User := "", Port := "", IdentityFile := "",
          Description := "", Comment := "", RawLines := [], StartLine := 0,
          EndLine := 0 } ::
        [{ Host := "x", HostName := "3", User := "", Port := "", IdentityFile := "",
           Description := "", Comment := "", RawLines := [], StartLine := 0,
           EndLine := 0 }] ∧
    deleteFiltered
        ([{ Host := "a", HostName := "1", User := "", Port := "", IdentityFile := "",
            Description := "", Comment := "", RawLines := [], StartLine := 0,
            EndLine := 0 }] ++
          { Host := "x", HostName := "2", User := "", Port := "", IdentityFile := "",
            Description := "", Comment := "", RawLines := [], StartLine := 0,
            EndLine := 0 } ::
          [{ Host := "x", HostName := "3", User := "", Port := "", IdentityFile := "",
             Description := "", Comment := "", RawLines := [], StartLine := 0,
             EndLine := 0 }]) "x" =
      [{ Host := "a", HostName := "1", User := "", Port := "", IdentityFile := "",
         Description := "", Comment := "", RawLines := [], StartLine := 0,
         EndLine := 0 }] ++
        deleteFiltered
          [{ Host := "x", HostName := "3", User := "", Port := "", IdentityFile := "",
             Description := "", Comment := "", RawLines := [], StartLine := 0,
             EndLine := 0 }] "x" :=
  claim_C3_duplicate_semantics_amended _ _ "x" _ _ (by decide) (by decide)

/-- C4 (code bug): for an entry whose raw lines already carry a
`# Description:` line, writing after the Description field changed replays
the stale line verbatim and never injects the new text, because the
injection is guarded by the absence of any `# Description:` substring.  The
output below keeps `Original description` although the entry's Description
field is `Updated description`, contradicting the spec (and the
expectation of TestUpdateDescription in writer_test.go). -/
theorem claim_C4_description_dedup_bug :
    writeEntryLines
      { Host := "example", HostName := "example.com", User := "root",
        Port := "", IdentityFile := "", Description := "Updated description",
        Comment := "# Description: Original description\n",
        RawLines := ["# Description: Original description", "Host example",
          "    HostName example.com", "    User root"],
        StartLine := 2, EndLine := 4 } =
      ["# Description: Original description", "Host example",
       "    HostName example.com", "    User root"] := by
  decide

/-- C5 counterexample: a block whose `Host` line is spelled `host a` parses
to the same entry, but after changing only the Port field the writer
re-emits the host line as `Host a`: a non-port line is not byte-for-byte
unchanged. -/
theorem claim_C5_counterexample :
    (parseLines ["host a", "    HostName x", "    Port 22"]).1 =
      [{ Host := "a", HostName := "x", User := "", Port := "22", IdentityFile := "",
         Description := "", Comment := "",
         RawLines := ["host a", "    HostName x", "    Port 22"],
         StartLine := 1, EndLine := 3 }] ∧
    writeEntryLines
      { Host := "a", HostName := "x", User := "", Port := "2222", IdentityFile := "",
        Description := "", Comment := "",
        RawLines := ["host a", "    HostName x", "    Port 22"],
        StartLine := 1, EndLine := 3 } =
      ["Host a", "    HostName x", "    Port 2222"] := by
  decide

/-- C5 witness: the amended port-update shape at a concrete block. -/
theorem claim_C5_witness :
    writeEntryLines
      { Host := "a", HostName := "x", User := "", Port := "2222", IdentityFile := "",
        Description := "", Comment := "",
        RawLines := ["Host a", "    HostName x", "    Port 22"],
        StartLine := 1, EndLine := 3 } =
      ("Host " ++ "a") :: (["    HostName x", "    Port 22"].map (fun l =>
        if isDirLine l "port" then
          leadingWS l ++ (fields (trimS l)).headD "" ++ " " ++ "2222"
        else l)) :=
  claim_C5_port_update_amended "a" "2222" ["    HostName x", "    Port 22"]
    (by decide) (by decide) (by decide) (by decide) (by decide) (by decide)
    (by decide) (by decide) (by decide) (by decide)
    { Host := "a", HostName := "x", User := "", Port := "22", IdentityFile := "",
      Description := "", Comment := "",
      RawLines := ["Host a", "    HostName x", "    Port 22"],
      StartLine := 1, EndLine := 3 } (by decide)

/-- C6 (corrected): a comment line seen inside an open block is appended
verbatim to the current entry's Comment and RawLines and does not end the
block only when it is indented, or is a `##` comment that is not a
`# Description:` comment; the counterexample shows an un-indented plain
comment instead closes the block and is attributed to the following one. -/
theorem claim_C6_comment_in_block_amended (st : ParseState) (l : String)
    (e : HostEntry) (hcls : classify l = LineKind.comment)
    (he : st.current = some e) (hin : st.inHostBlock = true)
    (hkeep : startsW l " " = true ∨ startsW l "\x09" = true ∨
      (startsW (trimS l) "##" = true ∧ startsW (trimS l) "# Description:" = false)) :
    processLine st l =
      { st with
        currentHostLines := st.currentHostLines ++ [l],
        current := some { e with Comment := e.Comment ++ l ++ "\n" },
        lineNum := st.lineNum + 1 } := by
  rw [processLine_comment st hcls]
  exact commentStep_keep st l (st.lineNum + 1) e he hin
    (closeCond_false_of_keep st l hkeep)

/-- C6 counterexample: the un-indented comment `# note` encountered inside
the open block of `Host a` is not appended to that entry (its Comment stays
empty and its RawLines end at line 2); the comment is attributed to the
following `Host b` block instead. -/
theorem claim_C6_counterexample :
    (parseLines ["Host a", "    HostName x", "# note", "Host b", "    HostName y"]).1 =
      [{ Host := "a", HostName := "x", User := "", Port := "", IdentityFile := "",
         Description := "", Comment := "", RawLines := ["Host a", "    HostName x"],
         StartLine := 1, EndLine := 2 },
       { Host := "b", HostName := "y", User := "", Port := "", IdentityFile := "",
         Description := "note", Comment := "# note\n",
         RawLines := ["# note", "Host b", "    HostName y"],
         StartLine := 4, EndLine := 5 }] := by
  decide

/-- C6 witness: an indented comment is kept in the open block at a concrete
parser state. -/
theorem claim_C6_witness :
    processLine
      { entries := [], standalone := [],
        current := some
          { Host := "a", HostName := "", User := "", Port := "",
            IdentityFile := "", Description := "", Comment := "", RawLines := [],
            StartLine := 1, EndLine := 1 },
        commentBuffer := [], currentHostLines := ["Host a"], lineNum := 1,
        inHostBlock := true } "    # hi" =
      { entries := [], standalone := [],
        current := some
          { Host := "a", HostName := "", User := "", Port := "",
            IdentityFile := "", Description := "", Comment := "    # hi\n",
            RawLines := [], StartLine := 1, EndLine := 1 },
        commentBuffer := [], currentHostLines := ["Host a", "    # hi"],
        lineNum := 2, inHostBlock := true } :=
  claim_C6_comment_in_block_amended _ "    # hi"
    { Host := "a", HostName := "", User := "", Port := "", IdentityFile := "",
      Description := "", Comment := "", RawLines := [], StartLine := 1,
      EndLine := 1 } (by decide) rfl rfl (Or.inl (by decide))

/-- C7 (corrected): the raw lines of every returned entry are the lines
`startLine` through `endLine` of the input prefixed by a (possibly empty)
run of buffered comment lines; the unconditional byte-for-byte equality
with the slice alone fails, as the counterexample's leading description
comment shows. -/
theorem claim_C7_rawlines_amended (ls : List String) :
    ∀ e ∈ (parseLines ls).1, ∃ pre, commentsOnly pre ∧
      joinNL e.RawLines = joinNL (pre ++ lineSlice ls e.StartLine e.EndLine) := by
  intro e he
  obtain ⟨pre, hp, hr⟩ := parseLines_rawlines ls e he
  exact ⟨pre, hp, by rw [hr]⟩

/-- C7 counterexample: with a `# Description:` comment above the block, the
returned entry spans lines 2-3 but its raw lines also hold the comment from
line 1, so their newline join differs from the join of the slice. -/
theorem claim_C7_counterexample :
    (parseLines ["# Description: x", "Host a", "    HostName h"]).1 =
      [{ Host := "a", HostName := "h", User := "", Port := "", IdentityFile := "",
         Description := "x", Comment := "# Description: x\n",
         RawLines := ["# Description: x", "Host a", "    HostName h"],
         StartLine := 2, EndLine := 3 }] ∧
    joinNL ["# Description: x", "Host a", "    HostName h"] ≠
      joinNL (lineSlice ["# Description: x", "Host a", "    HostName h"] 2 3) := by
  decide

/-- C7 witness: the comment-prefix decomposition at a concrete file and its
parsed entry. -/
theorem claim_C7_witness :
    ∃ pre, commentsOnly pre ∧
      joinNL ["# Description: x", "Host a", "    HostName h"] =
        joinNL (pre ++ lineSlice ["# Description: x", "Host a", "    HostName h"] 2 3) :=
  claim_C7_rawlines_amended ["# Description: x", "Host a", "    HostName h"]
    { Host := "a", HostName := "h", User := "", Port := "", IdentityFile := "",
      Description := "x", Comment := "# Description: x\n",
      RawLines := ["# Description: x", "Host a", "    HostName h"],
      StartLine := 2, EndLine := 3 } (by decide)

/-- C8 (confirmed): a missing config file yields empty entries, empty
standalone comments and no error; any other open failure is propagated as
an error; an existing file is parsed normally. -/
theorem claim_C8_first_run_semantics (m : String) (ls : List String) :
    ParseConfig FileReadResult.notExist = Except.ok ([], []) ∧
    ParseConfig (FileReadResult.openError m) =
      Except.error ("failed to open config file: " ++ m) ∧
    ParseConfig (FileReadResult.content ls) = Except.ok (parseLines ls) :=
  ⟨rfl, rfl, rfl⟩

/-- C9 (confirmed): updating an alias that matches no parsed entry leaves
the parsed entry list untouched, so the file is written back exactly as a
plain re-serialization of what was parsed. -/
theorem claim_C9_update_noop (ls : List String) (h : String) (ne : HostEntry)
    (hno : ∀ e ∈ (parseLines ls).1, e.Host ≠ h) :
    updateEntryLines ls h ne =
      writeConfigLines (parseLines ls).1 (parseLines ls).2 := by
  show writeConfigLines (replaceFirst (parseLines ls).1 h ne) (parseLines ls).2 = _
  rw [replaceFirst_no_match _ _ _ hno]

/-- C9 witness: updating a missing alias on a concrete file is a no-op. -/
theorem claim_C9_witness :
    updateEntryLines ["Host a", "    HostName x"] "zzz"
      { Host := "q", HostName := "", User := "", Port := "", IdentityFile := "",
        Description := "", Comment := "", RawLines := [], StartLine := 0,
        EndLine := 0 } =
      writeConfigLines (parseLines ["Host a", "    HostName x"]).1
        (parseLines ["Host a", "    HostName x"]).2 :=
  claim_C9_update_noop ["Host a", "    HostName x"] "zzz"
    { Host := "q", HostName := "", User := "", Port := "", IdentityFile := "",
      Description := "", Comment := "", RawLines := [], StartLine := 0,
      EndLine := 0 } (by decide)

/-- C10 (confirmed): a fresh write (empty RawLines) emits only the optional
description comment and the Host, HostName, User and Port lines, none of
which is an IdentityFile directive; concretely, adding an entry with a
non-empty IdentityFile to an empty file and re-parsing returns the entry
with an empty IdentityFile. -/
theorem claim_C10_identityfile_never_written :
    (∀ e : HostEntry, e.RawLines = [] →
      ∀ l ∈ writeEntryLines e, isDirLine l "identityfile" = false) ∧
    (parseLines (addEntryLines []
      { Host := "x", HostName := "h", User := "", Port := "", IdentityFile := "/id",
        Description := "", Comment := "", RawLines := [], StartLine := 0,
        EndLine := 0 })).1 =
      [{ Host := "x", HostName := "h", User := "", Port := "", IdentityFile := "",
         Description := "", Comment := "", RawLines := ["Host x", "    HostName h"],
         StartLine := 1, EndLine := 2 }] := by
  refine ⟨?_, by decide⟩
  intro e hre l hl
  unfold writeEntryLines at hl
  rw [if_pos hre] at hl
  simp only [List.mem_append] at hl
  rcases hl with ((((h1 | h2) | h3) | h4) | h5)
  · by_cases hd : e.Description = ""
    · rw [if_pos hd] at h1
      exact absurd h1 (List.not_mem_nil l)
    · rw [if_neg hd] at h1
      rw [List.mem_singleton.1 h1]
      exact isDirLine_desc_comment e.Description "identityfile"
  · rw [List.mem_singleton.1 h2]
    exact isDirLine_keyword [] ['H', 'o', 's', 't'] e.Host "identityfile"
      (by simp) (by simp) (by decide) (by decide) (by decide)
  · by_cases hh : e.HostName = ""
    · rw [if_pos hh] at h3
      exact absurd h3 (List.not_mem_nil l)
    · rw [if_neg hh] at h3
      rw [List.mem_singleton.1 h3]
      exact isDirLine_keyword [' ', ' ', ' ', ' ']
        ['H', 'o', 's', 't', 'N', 'a', 'm', 'e'] e.HostName "identityfile"
        (by decide) (by simp) (by decide) (by decide) (by decide)
  · by_cases hh : e.User = ""
    · rw [if_pos hh] at h4
      exact absurd h4 (List.not_mem_nil l)
    · rw [if_neg hh] at h4
      rw [List.mem_singleton.1 h4]
      exact isDirLine_keyword [' ', ' ', ' ', ' '] ['U', 's', 'e', 'r'] e.User
        "identityfile" (by decide) (by simp) (by decide) (by decide) (by decide)
  · by_cases hh : e.Port = ""
    · rw [if_pos hh] at h5
      exact absurd h5 (List.not_mem_nil l)
    · rw [if_neg hh] at h5
      rw [List.mem_singleton.1 h5]
      exact isDirLine_keyword [' ', ' ', ' ', ' '] ['P', 'o', 'r', 't'] e.Port
        "identityfile" (by decide) (by simp) (by decide) (by decide) (by decide)

/-- C10 witness: the fresh-write guarantee applied to a concrete entry and
emitted line. -/
theorem claim_C10_witness : isDirLine "Host x" "identityfile" = false :=
  (claim_C10_identityfile_never_written).1
    { Host := "x", HostName := "h", User := "", Port := "", IdentityFile := "/id",
      Description := "", Comment := "", RawLines := [], StartLine := 0,
      EndLine := 0 } rfl "Host x" (by decide)

end Gosshit
